import Mathlib

/-!
Verification development for the AlgoChat end-to-end encrypted messaging
core (TypeScript source). Bytes are modelled as `List Nat` (each element a
value below 256 where it matters); JavaScript strings are modelled by their
UTF-8 byte sequences, except where UTF-16 code-unit semantics of `.length`
and `.slice` matter, in which case a list of UTF-16 code units is used and
said so. External cryptographic primitives (HKDF-SHA256, X25519,
ChaCha20-Poly1305) come from the `@noble` libraries and are treated as an
abstract parameter structure `CryptoPrims`; the repository's own code is
translated faithfully on top of it. Fallible code returns `Except` values;
a thrown JavaScript error becomes an `Except.error`.
-/

/-- Bytes are lists of naturals; a well-formed byte list has all elements
below 256. -/
abbrev Bytes := List Nat

/-- All elements of a byte list are genuine bytes. -/
def BytesWF (bs : Bytes) : Prop := ∀ b ∈ bs, b < 256

instance : DecidablePred BytesWF := fun bs =>
  inferInstanceAs (Decidable (∀ b ∈ bs, b < 256))

/-- UTF-8 bytes of an ASCII string (all constants in the source are ASCII,
so mapping each character to its code point is exact). -/
def asciiBytes (s : String) : Bytes := s.data.map Char.toNat

-- Protocol constants of the v1 Standard protocol, from
-- `src/models/types.ts` (`PROTOCOL`).
namespace PROTOCOL

def VERSION : Nat := 0x01

def PROTOCOL_ID : Nat := 0x01

def HEADER_SIZE : Nat := 126

def TAG_SIZE : Nat := 16

def ENCRYPTED_SENDER_KEY_SIZE : Nat := 48

def MAX_PAYLOAD_SIZE : Nat := 882

def MIN_PAYMENT : Nat := 1000

end PROTOCOL

-- Protocol constants of the v1.1 PSK protocol, from `src/psk/types.ts`
-- (`PSK_PROTOCOL`).
namespace PSK_PROTOCOL

def VERSION : Nat := 0x01

def PROTOCOL_ID : Nat := 0x02

def HEADER_SIZE : Nat := 130

def TAG_SIZE : Nat := 16

def ENCRYPTED_SENDER_KEY_SIZE : Nat := 48

def MAX_PAYLOAD_SIZE : Nat := 878

def SESSION_SIZE : Nat := 100

def COUNTER_WINDOW : Nat := 200

end PSK_PROTOCOL

/-- Parsed message envelope (interface `ChatEnvelope` in
`src/models/types.ts`). -/
structure ChatEnvelope where
  version : Nat
  protocolId : Nat
  senderPublicKey : Bytes
  ephemeralPublicKey : Bytes
  nonce : Bytes
  encryptedSenderKey : Bytes
  ciphertext : Bytes
deriving Repr, DecidableEq

/-- PSK envelope wire format (interface `PSKEnvelope` in
`src/psk/types.ts`). -/
structure PSKEnvelope where
  version : Nat
  protocolId : Nat
  ratchetCounter : Nat
  senderPublicKey : Bytes
  ephemeralPublicKey : Bytes
  nonce : Bytes
  encryptedSenderKey : Bytes
  ciphertext : Bytes
deriving Repr, DecidableEq

/-- Errors thrown by the envelope codecs and the encryptors/decryptors.
The source distinguishes error classes (`EnvelopeError`,
`EncryptionError`, `PSKEnvelopeError`, `PSKEncryptionError`) by name and
carries a message string; a decryption AEAD failure surfaces as
`DecryptionFailed`. -/
inductive CodecError where
  | invalidEnvelope
  | messageTooLarge
  | invalidPSKLength
  | decryptionFailed
  | invalidKey
  | uriInvalid
deriving Repr, DecidableEq

/-- Encodes a `ChatEnvelope` to bytes (`encodeEnvelope` in
`src/crypto/envelope.ts`): the fields are laid out back to back, two header
bytes first. -/
def encodeEnvelope (envelope : ChatEnvelope) : Bytes :=
  [envelope.version, envelope.protocolId] ++
    envelope.senderPublicKey ++
    envelope.ephemeralPublicKey ++
    envelope.nonce ++
    envelope.encryptedSenderKey ++
    envelope.ciphertext

/-- Decodes bytes to a `ChatEnvelope` (`decodeEnvelope` in
`src/crypto/envelope.ts`); `data.slice(a, b)` is `(data.drop a).take (b - a)`
and `data.slice(a)` is `data.drop a`. -/
def decodeEnvelope (data : Bytes) : Except CodecError ChatEnvelope :=
  if data.length < 2 then .error .invalidEnvelope
  else
    let version := data.headI
    let protocolId := data.tail.headI
    if protocolId ≠ PROTOCOL.PROTOCOL_ID then .error .invalidEnvelope
    else if version ≠ PROTOCOL.VERSION then .error .invalidEnvelope
    else if data.length < PROTOCOL.HEADER_SIZE + PROTOCOL.TAG_SIZE then
      .error .invalidEnvelope
    else
      .ok {
        version := version
        protocolId := protocolId
        senderPublicKey := (data.drop 2).take 32
        ephemeralPublicKey := (data.drop 34).take 32
        nonce := (data.drop 66).take 12
        encryptedSenderKey := (data.drop 78).take 48
        ciphertext := data.drop 126
      }

/-- Discriminator (`isChatMessage` in `src/crypto/envelope.ts`). -/
def isChatMessage (data : Bytes) : Bool :=
  data.length ≥ 2 ∧ data.headI = PROTOCOL.VERSION ∧
    data.tail.headI = PROTOCOL.PROTOCOL_ID

/-- Big-endian serialization of an unsigned 32-bit value, as computed by
the JavaScript shifts `(v >>> 24) & 0xff`, …, `v & 0xff` (the `>>>`
operator reduces its operand modulo `2 ^ 32` first). -/
def enc32 (v : Nat) : Bytes :=
  [v % 2 ^ 32 / 2 ^ 24 % 256, v % 2 ^ 32 / 2 ^ 16 % 256,
    v % 2 ^ 32 / 2 ^ 8 % 256, v % 2 ^ 32 % 256]

/-- Big-endian reconstruction of an unsigned 32-bit value from four bytes,
as computed by `(b0 << 24) | (b1 << 16) | (b2 << 8) | b3` followed by
`>>> 0`, which makes the 32-bit result unsigned. -/
def dec32 (b0 b1 b2 b3 : Nat) : Nat :=
  b0 * 2 ^ 24 + b1 * 2 ^ 16 + b2 * 2 ^ 8 + b3

/-- Encodes a `PSKEnvelope` to bytes (`encodePSKEnvelope` in
`src/psk/envelope.ts`). -/
def encodePSKEnvelope (envelope : PSKEnvelope) : Bytes :=
  [envelope.version, envelope.protocolId] ++
    enc32 envelope.ratchetCounter ++
    envelope.senderPublicKey ++
    envelope.ephemeralPublicKey ++
    envelope.nonce ++
    envelope.encryptedSenderKey ++
    envelope.ciphertext

/-- Decodes bytes to a `PSKEnvelope` (`decodePSKEnvelope` in
`src/psk/envelope.ts`). -/
def decodePSKEnvelope (data : Bytes) : Except CodecError PSKEnvelope :=
  if data.length < 2 then .error .invalidEnvelope
  else
    let version := data.headI
    let protocolId := data.tail.headI
    if version ≠ PSK_PROTOCOL.VERSION then .error .invalidEnvelope
    else if protocolId ≠ PSK_PROTOCOL.PROTOCOL_ID then .error .invalidEnvelope
    else if data.length < PSK_PROTOCOL.HEADER_SIZE + PSK_PROTOCOL.TAG_SIZE then
      .error .invalidEnvelope
    else
      .ok {
        version := version
        protocolId := protocolId
        ratchetCounter :=
          dec32 ((data.drop 2).headI) ((data.drop 3).headI)
            ((data.drop 4).headI) ((data.drop 5).headI)
        senderPublicKey := (data.drop 6).take 32
        ephemeralPublicKey := (data.drop 38).take 32
        nonce := (data.drop 70).take 12
        encryptedSenderKey := (data.drop 82).take 48
        ciphertext := data.drop 130
      }

/-- Discriminator (`isPSKMessage` in `src/psk/envelope.ts`). -/
def isPSKMessage (data : Bytes) : Bool :=
  data.length ≥ 2 ∧ data.headI = PSK_PROTOCOL.VERSION ∧
    data.tail.headI = PSK_PROTOCOL.PROTOCOL_ID

/-- Validity of a Standard envelope: correct header constants, the fixed
field widths of the wire format, and a ciphertext carrying at least the
16-byte AEAD tag. -/
def ChatEnvelope.Valid (e : ChatEnvelope) : Prop :=
  e.version = PROTOCOL.VERSION ∧ e.protocolId = PROTOCOL.PROTOCOL_ID ∧
    e.senderPublicKey.length = 32 ∧ e.ephemeralPublicKey.length = 32 ∧
    e.nonce.length = 12 ∧ e.encryptedSenderKey.length = 48 ∧
    16 ≤ e.ciphertext.length

/-- Validity of a PSK envelope: as for the Standard envelope, plus a
ratchet counter representable as an unsigned 32-bit integer. -/
def PSKEnvelope.Valid (e : PSKEnvelope) : Prop :=
  e.version = PSK_PROTOCOL.VERSION ∧ e.protocolId = PSK_PROTOCOL.PROTOCOL_ID ∧
    e.ratchetCounter < 2 ^ 32 ∧
    e.senderPublicKey.length = 32 ∧ e.ephemeralPublicKey.length = 32 ∧
    e.nonce.length = 12 ∧ e.encryptedSenderKey.length = 48 ∧
    16 ≤ e.ciphertext.length

/-- Counter state for replay protection (interface `PSKState` in
`src/psk/types.ts`). JavaScript numbers holding counters are modelled as
integers; the `Set<number>` is modelled as its insertion-ordered element
list. -/
structure PSKState where
  sendCounter : Int
  peerLastCounter : Int
  seenCounters : List Int
deriving Repr, DecidableEq

/-- Creates a new PSK state (`createPSKState` in `src/psk/state.ts`). -/
def createPSKState : PSKState :=
  { sendCounter := 0, peerLastCounter := 0, seenCounters := [] }

/-- Validates whether a received counter is acceptable (`validateCounter`
in `src/psk/state.ts`). -/
def validateCounter (state : PSKState) (counter : Int) : Bool :=
  if state.seenCounters.contains counter then false
  else
    let lower := state.peerLastCounter - (PSK_PROTOCOL.COUNTER_WINDOW : Int)
    let upper := state.peerLastCounter + (PSK_PROTOCOL.COUNTER_WINDOW : Int)
    decide (lower ≤ counter ∧ counter ≤ upper)

/-- Records a received counter, returning a new state (`recordReceive` in
`src/psk/state.ts`): the counter is inserted, `peerLastCounter` becomes the
maximum, and entries below the window are pruned. -/
def recordReceive (state : PSKState) (counter : Int) : PSKState :=
  let newSeenCounters :=
    if state.seenCounters.contains counter then state.seenCounters
    else state.seenCounters ++ [counter]
  let newPeerLastCounter := max state.peerLastCounter counter
  let lowerBound := newPeerLastCounter - (PSK_PROTOCOL.COUNTER_WINDOW : Int)
  { sendCounter := state.sendCounter
    peerLastCounter := newPeerLastCounter
    seenCounters := newSeenCounters.filter (fun seen => !decide (seen < lowerBound)) }

/-- Advances the send counter (`advanceSendCounter` in
`src/psk/state.ts`), returning the counter to use and the updated state. -/
def advanceSendCounter (state : PSKState) : Int × PSKState :=
  (state.sendCounter,
    { sendCounter := state.sendCounter + 1
      peerLastCounter := state.peerLastCounter
      seenCounters := state.seenCounters })

/-- States reachable from `createPSKState` by any sequence of
`recordReceive` and `advanceSendCounter` operations. -/
inductive ReachablePSKState : PSKState → Prop where
  | init : ReachablePSKState createPSKState
  | recv (s : PSKState) (c : Int) :
      ReachablePSKState s → ReachablePSKState (recordReceive s c)
  | send (s : PSKState) :
      ReachablePSKState s → ReachablePSKState (advanceSendCounter s).2

/-- Concrete Standard envelope used to witness the codec round-trip. -/
def stdEnvelopeEx : ChatEnvelope :=
  { version := 1, protocolId := 1
    senderPublicKey := List.replicate 32 7
    ephemeralPublicKey := List.replicate 32 9
    nonce := List.replicate 12 3
    encryptedSenderKey := List.replicate 48 4
    ciphertext := List.replicate 16 5 }

/-- Concrete PSK envelope used to witness the codec round-trip. -/
def pskEnvelopeEx : PSKEnvelope :=
  { version := 1, protocolId := 2, ratchetCounter := 70000
    senderPublicKey := List.replicate 32 7
    ephemeralPublicKey := List.replicate 32 9
    nonce := List.replicate 12 3
    encryptedSenderKey := List.replicate 48 4
    ciphertext := List.replicate 16 5 }

/-- X25519 key pair (interface `X25519KeyPair` in `src/models/types.ts`). -/
structure X25519KeyPair where
  privateKey : Bytes
  publicKey : Bytes
deriving Repr, DecidableEq

/-- Abstract cryptographic primitives supplied by the `@noble` libraries
(out of scope of this repository): `hkdf ikm salt info len` is
`hkdf(sha256, ikm, salt, info, len)`; `dh sk pk` is
`x25519.getSharedSecret(sk, pk)`; `basePub sk` is `x25519.getPublicKey(sk)`;
`aeadSeal k n pt` is `chacha20poly1305(k, n).encrypt(pt)`; `aeadOpen k n ct`
is `chacha20poly1305(k, n).decrypt(ct)` with a thrown authentication error
modelled as `none`. -/
structure CryptoPrims where
  hkdf : Bytes → Bytes → Bytes → Nat → Bytes
  dh : Bytes → Bytes → Bytes
  basePub : Bytes → Bytes
  aeadSeal : Bytes → Bytes → Bytes → Bytes
  aeadOpen : Bytes → Bytes → Bytes → Option Bytes

/-- Salt constant `SESSION_SALT` in `src/psk/ratchet.ts`. -/
def SESSION_SALT : Bytes := asciiBytes "AlgoChat-PSK-Session"

/-- Salt constant `POSITION_SALT` in `src/psk/ratchet.ts`. -/
def POSITION_SALT : Bytes := asciiBytes "AlgoChat-PSK-Position"

/-- Info constant for the hybrid message key in `src/psk/ratchet.ts`. -/
def HYBRID_INFO_TAG : Bytes := asciiBytes "AlgoChatV1-PSK"

/-- Info constant for the PSK sender key in `src/psk/ratchet.ts`. -/
def PSK_SENDER_KEY_INFO_TAG : Bytes := asciiBytes "AlgoChatV1-PSK-SenderKey"

/-- Encodes a number as 4 big-endian bytes (`uint32BE` in
`src/psk/ratchet.ts`); the JavaScript shifts agree with `enc32`. -/
def uint32BE (value : Nat) : Bytes := enc32 value

/-- Derives a session PSK (`deriveSessionPSK` in `src/psk/ratchet.ts`). -/
def deriveSessionPSK (P : CryptoPrims) (initialPSK : Bytes)
    (sessionIndex : Nat) : Bytes :=
  P.hkdf initialPSK SESSION_SALT (uint32BE sessionIndex) 32

/-- Derives a position PSK (`derivePositionPSK` in `src/psk/ratchet.ts`). -/
def derivePositionPSK (P : CryptoPrims) (sessionPSK : Bytes)
    (position : Nat) : Bytes :=
  P.hkdf sessionPSK POSITION_SALT (uint32BE position) 32

/-- Two-level ratchet (`derivePSKAtCounter` in `src/psk/ratchet.ts`). -/
def derivePSKAtCounter (P : CryptoPrims) (initialPSK : Bytes)
    (counter : Nat) : Bytes :=
  let sessionIndex := counter / PSK_PROTOCOL.SESSION_SIZE
  let position := counter % PSK_PROTOCOL.SESSION_SIZE
  let sessionPSK := deriveSessionPSK P initialPSK sessionIndex
  derivePositionPSK P sessionPSK position

/-- Hybrid symmetric key (`deriveHybridSymmetricKey` in
`src/psk/ratchet.ts`): IKM is the ECDH shared secret concatenated with the
current ratchet PSK. -/
def deriveHybridSymmetricKey (P : CryptoPrims)
    (sharedSecret currentPSK ephemeralPublicKey senderPublicKey
      recipientPublicKey : Bytes) : Bytes :=
  P.hkdf (sharedSecret ++ currentPSK) ephemeralPublicKey
    (HYBRID_INFO_TAG ++ senderPublicKey ++ recipientPublicKey) 32

/-- PSK sender key (`deriveSenderKey` in `src/psk/ratchet.ts`). -/
def deriveSenderKey (P : CryptoPrims)
    (senderSharedSecret currentPSK ephemeralPublicKey
      senderPublicKey : Bytes) : Bytes :=
  P.hkdf (senderSharedSecret ++ currentPSK) ephemeralPublicKey
    (PSK_SENDER_KEY_INFO_TAG ++ senderPublicKey) 32

/-- Encrypts a message using the PSK protocol (`encryptPSKMessage` in
`src/psk/encryption.ts`). The freshly generated ephemeral pair and random
nonce are passed explicitly. -/
def encryptPSKMessage (P : CryptoPrims) (plaintext : Bytes)
    (senderPublicKey recipientPublicKey currentPSK : Bytes)
    (ratchetCounter : Nat) (ephemeral : X25519KeyPair) (nonce : Bytes) :
    Except CodecError PSKEnvelope :=
  if plaintext.length > PSK_PROTOCOL.MAX_PAYLOAD_SIZE then
    .error .messageTooLarge
  else
    let sharedSecret := P.dh ephemeral.privateKey recipientPublicKey
    let symmetricKey := deriveHybridSymmetricKey P sharedSecret currentPSK
      ephemeral.publicKey senderPublicKey recipientPublicKey
    let ciphertextWithTag := P.aeadSeal symmetricKey nonce plaintext
    let senderSharedSecret := P.dh ephemeral.privateKey senderPublicKey
    let senderEncryptionKey := deriveSenderKey P senderSharedSecret
      currentPSK ephemeral.publicKey senderPublicKey
    let encryptedSenderKey := P.aeadSeal senderEncryptionKey nonce symmetricKey
    .ok {
      version := PSK_PROTOCOL.VERSION
      protocolId := PSK_PROTOCOL.PROTOCOL_ID
      ratchetCounter := ratchetCounter
      senderPublicKey := senderPublicKey
      ephemeralPublicKey := ephemeral.publicKey
      nonce := nonce
      encryptedSenderKey := encryptedSenderKey
      ciphertext := ciphertextWithTag
    }

/-- JSON values, for the fragment of `JSON.parse` / property access that
the payload classifier exercises. Object fields keep the last binding of a
duplicated key, as `JSON.parse` does. -/
inductive Json where
  | jnull : Json
  | jbool : Bool → Json
  | jnum : Int → Json
  | jstr : Bytes → Json
  | jarr : List Json → Json
  | jobj : List (Bytes × Json) → Json

/-- Skips JSON whitespace. -/
def skipWs : Bytes → Bytes
  | [] => []
  | b :: rest =>
      if b = 32 ∨ b = 9 ∨ b = 10 ∨ b = 13 then skipWs rest else b :: rest

/-- Parses the remainder of a JSON string after the opening quote,
returning the decoded bytes and the rest of the input. The model covers
the simple escapes; a `\u` escape is outside the modelled fragment and
fails the parse. -/
def parseJsonString : Bytes → Option (Bytes × Bytes)
  | [] => none
  | 34 :: rest => some ([], rest)
  | 92 :: e :: rest =>
      let ec : Option Nat :=
        if e = 34 then some 34
        else if e = 92 then some 92
        else if e = 47 then some 47
        else if e = 98 then some 8
        else if e = 102 then some 12
        else if e = 110 then some 10
        else if e = 114 then some 13
        else if e = 116 then some 9
        else none
      match ec with
      | none => none
      | some c =>
          match parseJsonString rest with
          | none => none
          | some (sval, r) => some (c :: sval, r)
  | 92 :: [] => none
  | b :: rest =>
      if b < 32 then none
      else
        match parseJsonString rest with
        | none => none
        | some (sval, r) => some (b :: sval, r)

/-- Reads a run of decimal digits. -/
def parseDigits (input : Bytes) : Option (Nat × Bytes) :=
  let ds := input.takeWhile (fun b => decide (48 ≤ b ∧ b ≤ 57))
  if ds = [] then none
  else some (ds.foldl (fun acc d => acc * 10 + (d - 48)) 0,
    input.drop ds.length)

/-- Rejects a fraction or exponent continuation (outside the modelled
fragment of JSON numbers). -/
def checkIntEnd (input : Bytes) : Option Bytes :=
  match input with
  | 46 :: _ => none
  | 101 :: _ => none
  | 69 :: _ => none
  | _ => some input

/-- Parses a JSON integer. -/
def parseJsonNumber (input : Bytes) : Option (Json × Bytes) :=
  match input with
  | 45 :: rest =>
      match parseDigits rest with
      | none => none
      | some (n, r) =>
          match checkIntEnd r with
          | none => none
          | some r2 => some (.jnum (-(n : Int)), r2)
  | _ =>
      match parseDigits input with
      | none => none
      | some (n, r) =>
          match checkIntEnd r with
          | none => none
          | some r2 => some (.jnum (n : Int), r2)

/-- Replaces an existing binding of `key` or appends a new one (the
last-wins duplicate-key semantics of `JSON.parse`). -/
def objInsert (fields : List (Bytes × Json)) (key : Bytes) (v : Json) :
    List (Bytes × Json) :=
  if fields.any (fun f => f.1 == key) then
    fields.map (fun f => if f.1 == key then (key, v) else f)
  else fields ++ [(key, v)]

mutual

/-- Parses one JSON value, returning it and the remaining input. Fuel
bounds recursion depth. -/
def parseJsonValue : Nat → Bytes → Option (Json × Bytes)
  | 0, _ => none
  | fuel + 1, input =>
      match skipWs input with
      | [] => none
      | c :: rest =>
          if c = 110 then
            if rest.take 3 = asciiBytes "ull" then some (.jnull, rest.drop 3)
            else none
          else if c = 116 then
            if rest.take 3 = asciiBytes "rue" then
              some (.jbool true, rest.drop 3)
            else none
          else if c = 102 then
            if rest.take 4 = asciiBytes "alse" then
              some (.jbool false, rest.drop 4)
            else none
          else if c = 34 then
            match parseJsonString rest with
            | none => none
            | some (sval, r) => some (.jstr sval, r)
          else if c = 123 then parseJsonObjFields fuel rest []
          else if c = 91 then parseJsonArrElems fuel rest []
          else if c = 45 ∨ (48 ≤ c ∧ c ≤ 57) then
            parseJsonNumber (c :: rest)
          else none

/-- Parses object members after `\x7b` or after a comma. -/
def parseJsonObjFields : Nat → Bytes → List (Bytes × Json) →
    Option (Json × Bytes)
  | 0, _, _ => none
  | fuel + 1, input, acc =>
      match skipWs input with
      | 125 :: rest => if acc.isEmpty then some (.jobj [], rest) else none
      | 34 :: rest =>
          match parseJsonString rest with
          | none => none
          | some (key, r1) =>
              match skipWs r1 with
              | 58 :: r2 =>
                  match parseJsonValue fuel r2 with
                  | none => none
                  | some (v, r3) =>
                      let acc2 := objInsert acc key v
                      match skipWs r3 with
                      | 44 :: r4 => parseJsonObjFields fuel r4 acc2
                      | 125 :: r4 => some (.jobj acc2, r4)
                      | _ => none
              | _ => none
      | _ => none

/-- Parses array elements after `[` or after a comma. -/
def parseJsonArrElems : Nat → Bytes → List Json → Option (Json × Bytes)
  | 0, _, _ => none
  | fuel + 1, input, acc =>
      match skipWs input with
      | 93 :: rest => if acc.isEmpty then some (.jarr [], rest) else none
      | input2 =>
          match parseJsonValue fuel input2 with
          | none => none
          | some (v, r1) =>
              match skipWs r1 with
              | 44 :: r2 => parseJsonArrElems fuel r2 (acc ++ [v])
              | 93 :: r2 => some (.jarr (acc ++ [v]), r2)
              | _ => none

end

/-- Model of `JSON.parse` on UTF-8 bytes: parses one value and requires
only whitespace to remain. -/
def jsonParse (data : Bytes) : Option Json :=
  match parseJsonValue (2 * data.length + 8) data with
  | none => none
  | some (v, rest) => if skipWs rest = [] then some v else none

/-- Property access `obj.key` on a parsed JSON value: a field lookup on an
object, `undefined` (`none`) otherwise. -/
def jsonGetField (j : Json) (key : Bytes) : Option Json :=
  match j with
  | .jobj fields => (fields.find? (fun f => f.1 == key)).map (fun f => f.2)
  | _ => none

/-- Optional chaining `obj?.key` for a string-valued field. -/
def jsonStrField (j : Option Json) (key : Bytes) : Option Bytes :=
  match j with
  | some v =>
      match jsonGetField v key with
      | some (.jstr sval) => some sval
      | _ => none
  | none => none

/-- Decrypted message content (interface `DecryptedContent` in
`src/models/types.ts`); strings are modelled as UTF-8 bytes. -/
structure DecryptedContent where
  text : Bytes
  replyToId : Option Bytes
  replyToPreview : Option Bytes
deriving Repr, DecidableEq

/-- Info constant `ENCRYPTION_INFO_PREFIX` in `src/crypto/encryption.ts`. -/
def ENCRYPTION_INFO_TAG : Bytes := asciiBytes "AlgoChatV1"

/-- Info constant `SENDER_KEY_INFO_PREFIX` in `src/crypto/encryption.ts`. -/
def SENDER_KEY_INFO_TAG : Bytes := asciiBytes "AlgoChatV1-SenderKey"

/-- Info constant `PSK_INFO` in `src/crypto/encryption.ts`, used by the
optional PSK mixing of the Standard encryptor. -/
def PSK_MIX_INFO : Bytes := asciiBytes "AlgoChatV1-PSK"

/-- Byte-array equality helper (`uint8ArrayEquals` in
`src/crypto/keys.ts`): equal lengths and equal elements, which on the list
model is list equality. -/
def uint8ArrayEquals (a b : Bytes) : Bool := a == b

/-- Derives input keying material, mixing in a PSK when provided
(`deriveIKM` in `src/crypto/encryption.ts`); a PSK of a length other than
0 or 32 throws. -/
def deriveIKM (P : CryptoPrims) (ecdhSecret : Bytes) (psk : Option Bytes) :
    Except CodecError Bytes :=
  match psk with
  | none => .ok ecdhSecret
  | some p =>
      if p.length = 0 then .ok ecdhSecret
      else if p.length ≠ 32 then .error .invalidPSKLength
      else .ok (P.hkdf ecdhSecret p PSK_MIX_INFO 32)

/-- Checks whether a decrypted payload is the key-publish sentinel
(`isKeyPublishPayload` in `src/crypto/encryption.ts`). -/
def isKeyPublishPayload (data : Bytes) : Bool :=
  if data.length = 0 ∨ data.headI ≠ 0x7b then false
  else
    match jsonParse data with
    | none => false
    | some j =>
        match jsonGetField j (asciiBytes "type") with
        | some (.jstr sval) => sval == asciiBytes "key-publish"
        | _ => false

/-- Parses a decrypted message payload (`parseMessagePayload` in
`src/crypto/encryption.ts`): JSON payloads with a string `text` field
carry optional reply context; anything else is plain text. -/
def parseMessagePayload (data : Bytes) : DecryptedContent :=
  if data.length ≠ 0 ∧ data.headI = 0x7b then
    match jsonParse data with
    | some j =>
        match jsonGetField j (asciiBytes "text") with
        | some (.jstr t) =>
            { text := t
              replyToId :=
                jsonStrField (jsonGetField j (asciiBytes "replyTo"))
                  (asciiBytes "txid")
              replyToPreview :=
                jsonStrField (jsonGetField j (asciiBytes "replyTo"))
                  (asciiBytes "preview") }
        | _ => { text := data, replyToId := none, replyToPreview := none }
    | none => { text := data, replyToId := none, replyToPreview := none }
  else { text := data, replyToId := none, replyToPreview := none }

/-- Encrypts a message for a recipient (`encryptMessage` in
`src/crypto/encryption.ts`). The plaintext is its UTF-8 byte sequence
(`TextEncoder`); the freshly generated ephemeral pair and random nonce are
explicit arguments. -/
def encryptMessage (P : CryptoPrims) (plaintext : Bytes)
    (senderPublicKey recipientPublicKey : Bytes) (psk : Option Bytes)
    (ephemeral : X25519KeyPair) (nonce : Bytes) :
    Except CodecError ChatEnvelope :=
  if plaintext.length > PROTOCOL.MAX_PAYLOAD_SIZE then .error .messageTooLarge
  else do
    let sharedSecret := P.dh ephemeral.privateKey recipientPublicKey
    let ikm ← deriveIKM P sharedSecret psk
    let info := ENCRYPTION_INFO_TAG ++ senderPublicKey ++ recipientPublicKey
    let symmetricKey := P.hkdf ikm ephemeral.publicKey info 32
    let ciphertextWithTag := P.aeadSeal symmetricKey nonce plaintext
    let senderSharedSecret := P.dh ephemeral.privateKey senderPublicKey
    let senderIkm ← deriveIKM P senderSharedSecret psk
    let senderInfo := SENDER_KEY_INFO_TAG ++ senderPublicKey
    let senderEncryptionKey := P.hkdf senderIkm ephemeral.publicKey
      senderInfo 32
    let encryptedSenderKey := P.aeadSeal senderEncryptionKey nonce
      symmetricKey
    pure {
      version := PROTOCOL.VERSION
      protocolId := PROTOCOL.PROTOCOL_ID
      senderPublicKey := senderPublicKey
      ephemeralPublicKey := ephemeral.publicKey
      nonce := nonce
      encryptedSenderKey := encryptedSenderKey
      ciphertext := ciphertextWithTag
    }

/-- Decrypts as the message recipient (`decryptAsRecipient` in
`src/crypto/encryption.ts`). -/
def decryptAsRecipient (P : CryptoPrims) (envelope : ChatEnvelope)
    (recipientPrivateKey recipientPublicKey : Bytes) (psk : Option Bytes) :
    Except CodecError Bytes := do
  let sharedSecret := P.dh recipientPrivateKey envelope.ephemeralPublicKey
  let ikm ← deriveIKM P sharedSecret psk
  let info := ENCRYPTION_INFO_TAG ++ envelope.senderPublicKey ++
    recipientPublicKey
  let symmetricKey := P.hkdf ikm envelope.ephemeralPublicKey info 32
  match P.aeadOpen symmetricKey envelope.nonce envelope.ciphertext with
  | some plaintext => pure plaintext
  | none => .error .decryptionFailed

/-- Decrypts as the message sender (`decryptAsSender` in
`src/crypto/encryption.ts`). -/
def decryptAsSender (P : CryptoPrims) (envelope : ChatEnvelope)
    (senderPrivateKey senderPublicKey : Bytes) (psk : Option Bytes) :
    Except CodecError Bytes := do
  let sharedSecret := P.dh senderPrivateKey envelope.ephemeralPublicKey
  let ikm ← deriveIKM P sharedSecret psk
  let senderInfo := SENDER_KEY_INFO_TAG ++ senderPublicKey
  let senderDecryptionKey := P.hkdf ikm envelope.ephemeralPublicKey
    senderInfo 32
  match P.aeadOpen senderDecryptionKey envelope.nonce
      envelope.encryptedSenderKey with
  | none => .error .decryptionFailed
  | some symmetricKey =>
      match P.aeadOpen symmetricKey envelope.nonce envelope.ciphertext with
      | some plaintext => pure plaintext
      | none => .error .decryptionFailed

/-- Decrypts a message envelope (`decryptMessage` in
`src/crypto/encryption.ts`): dispatches on whether our public key is the
envelope sender key, collapses key-publish payloads to `none`, and parses
the payload otherwise. -/
def decryptMessage (P : CryptoPrims) (envelope : ChatEnvelope)
    (myPrivateKey myPublicKey : Bytes) (psk : Option Bytes) :
    Except CodecError (Option DecryptedContent) := do
  let weAreSender := uint8ArrayEquals myPublicKey envelope.senderPublicKey
  let plaintext ←
    if weAreSender then
      decryptAsSender P envelope myPrivateKey myPublicKey psk
    else
      decryptAsRecipient P envelope myPrivateKey myPublicKey psk
  if isKeyPublishPayload plaintext then pure none
  else pure (some (parseMessagePayload plaintext))

/-- Decrypts a PSK message as the recipient (`decryptPSKAsRecipient` in
`src/psk/encryption.ts`). -/
def decryptPSKAsRecipient (P : CryptoPrims) (envelope : PSKEnvelope)
    (recipientPrivateKey recipientPublicKey currentPSK : Bytes) :
    Except CodecError Bytes :=
  let sharedSecret := P.dh recipientPrivateKey envelope.ephemeralPublicKey
  let symmetricKey := deriveHybridSymmetricKey P sharedSecret currentPSK
    envelope.ephemeralPublicKey envelope.senderPublicKey recipientPublicKey
  match P.aeadOpen symmetricKey envelope.nonce envelope.ciphertext with
  | some plaintext => pure plaintext
  | none => .error .decryptionFailed

/-- Decrypts a PSK message as the sender (`decryptPSKAsSender` in
`src/psk/encryption.ts`). -/
def decryptPSKAsSender (P : CryptoPrims) (envelope : PSKEnvelope)
    (senderPrivateKey senderPublicKey currentPSK : Bytes) :
    Except CodecError Bytes :=
  let sharedSecret := P.dh senderPrivateKey envelope.ephemeralPublicKey
  let senderDecryptionKey := deriveSenderKey P sharedSecret currentPSK
    envelope.ephemeralPublicKey senderPublicKey
  match P.aeadOpen senderDecryptionKey envelope.nonce
      envelope.encryptedSenderKey with
  | none => .error .decryptionFailed
  | some symmetricKey =>
      match P.aeadOpen symmetricKey envelope.nonce envelope.ciphertext with
      | some plaintext => pure plaintext
      | none => .error .decryptionFailed

/-- Decrypts a PSK message envelope (`decryptPSKMessage` in
`src/psk/encryption.ts`). -/
def decryptPSKMessage (P : CryptoPrims) (envelope : PSKEnvelope)
    (recipientPrivateKey recipientPublicKey currentPSK : Bytes) :
    Except CodecError (Option DecryptedContent) := do
  let weAreSender := uint8ArrayEquals recipientPublicKey
    envelope.senderPublicKey
  let plaintext ←
    if weAreSender then
      decryptPSKAsSender P envelope recipientPrivateKey recipientPublicKey
        currentPSK
    else
      decryptPSKAsRecipient P envelope recipientPrivateKey
        recipientPublicKey currentPSK
  if isKeyPublishPayload plaintext then pure none
  else pure (some (parseMessagePayload plaintext))

/-- Toy HKDF used to witness theorems that are abstract in the
primitives: tags its three inputs so distinct inputs stay distinct. -/
def toyHkdf (ikm salt info : Bytes) (len : Nat) : Bytes :=
  len :: ikm.length :: (ikm ++ salt.length :: (salt ++ info.length :: info))

/-- Toy X25519 base-point multiplication over a small discrete-log group
(exponentiation of 2), padded to 32 bytes. -/
def toyBase (sk : Bytes) : Bytes :=
  List.replicate 31 1 ++ [2 ^ (sk.sum + 1)]

/-- Toy X25519 shared secret: raises the peer value to the private
exponent, making the Diffie-Hellman square commute. -/
def toyDh (sk pk : Bytes) : Bytes :=
  List.replicate 31 1 ++ [pk.prod ^ (sk.sum + 1)]

/-- Toy AEAD seal: tags key and nonce onto the plaintext. -/
def toySeal (key nonce pt : Bytes) : Bytes :=
  key.length :: (key ++ nonce.length :: (nonce ++ pt))

/-- Toy AEAD open: succeeds exactly when key and nonce match the sealed
ones. -/
def toyOpen (key nonce ct : Bytes) : Option Bytes :=
  match ct with
  | [] => none
  | kl :: rest =>
      if kl = key.length ∧ rest.take key.length = key then
        match rest.drop key.length with
        | [] => none
        | nl :: rest2 =>
            if nl = nonce.length ∧ rest2.take nonce.length = nonce then
              some (rest2.drop nonce.length)
            else none
      else none

/-- Concrete primitive instance satisfying the abstract laws, used by the
witnesses. -/
def toyPrims : CryptoPrims :=
  { hkdf := toyHkdf, dh := toyDh, basePub := toyBase,
    aeadSeal := toySeal, aeadOpen := toyOpen }

/-- Concrete sender secret key for witnesses. -/
def skS : Bytes := List.replicate 32 0

/-- Concrete recipient secret key for witnesses. -/
def skR : Bytes := List.replicate 31 0 ++ [1]

/-- Concrete ephemeral secret key for witnesses. -/
def skE : Bytes := List.replicate 31 0 ++ [2]

/-- Concrete sender public key for witnesses. -/
def pkS : Bytes := toyBase skS

/-- Concrete recipient public key for witnesses. -/
def pkR : Bytes := toyBase skR

/-- Concrete ephemeral key pair for witnesses. -/
def ephEx : X25519KeyPair := { privateKey := skE, publicKey := toyBase skE }

/-- Concrete nonce for witnesses. -/
def nonceEx : Bytes := List.replicate 12 6

/-- Concrete current ratchet PSK for witnesses. -/
def pskX : Bytes := List.replicate 32 170

/-- UTF-8 bytes of the JSON plaintext used in the C1 counterexample
(an object with a string field named text holding "hi"). -/
def mJsonEx : Bytes := [123, 34, 116, 101, 120, 116, 34, 58, 34, 104, 105, 34, 125]

/-- Concrete third-party ("attacker") secret key for witnesses. -/
def skA : Bytes := List.replicate 31 0 ++ [3]

/-- Concrete third-party public key for witnesses. -/
def pkA : Bytes := toyBase skA

/-- Discovered key (interface `DiscoveredKey` in `src/models/types.ts`). -/
structure DiscoveredKey where
  publicKey : Bytes
  isVerified : Bool
deriving Repr, DecidableEq

/-- Length-checked Ed25519 verification (`verifyEncryptionKey` in
`src/crypto/signature.ts`); the Ed25519 primitive itself is the abstract
parameter `edVerify sig msg pub` (its own internal failure already
collapses to `false` in the source). -/
def verifyEncryptionKey (edVerify : Bytes → Bytes → Bytes → Bool)
    (encryptionPublicKey verifyingKey signature : Bytes) :
    Except CodecError Bool :=
  if encryptionPublicKey.length ≠ 32 then .error .invalidKey
  else if verifyingKey.length ≠ 32 then .error .invalidKey
  else if signature.length ≠ 64 then .error .invalidKey
  else .ok (edVerify signature encryptionPublicKey verifyingKey)

/-- Parses a key announcement from a transaction note
(`parseKeyAnnouncement` in `src/blockchain/discovery.ts`): a thrown
verification error is caught and collapses to `isVerified = false`. -/
def parseKeyAnnouncement (edVerify : Bytes → Bytes → Bytes → Bool)
    (note : Bytes) (ed25519PublicKey : Option Bytes) :
    Option DiscoveredKey :=
  if note.length < 32 then none
  else
    let publicKey := note.take 32
    let isVerified :=
      match ed25519PublicKey with
      | some edpk =>
          if 96 ≤ note.length then
            let signature := (note.drop 32).take 64
            match verifyEncryptionKey edVerify publicKey edpk signature with
            | .ok b => b
            | .error _ => false
          else false
      | none => false
    some { publicKey := publicKey, isVerified := isVerified }

/-- Reply payload embedded by `encryptReply` in
`src/crypto/encryption.ts`: the object literal passed to `JSON.stringify`
before sealing. JavaScript string fields are modelled as lists of UTF-16
code units, because the truncation uses `.length` and `.slice`, which
count UTF-16 code units. -/
structure ReplyPayload where
  text : List Nat
  replyToTxid : List Nat
  replyToPreview : List Nat
deriving Repr, DecidableEq

/-- Preview truncation as written in `encryptReply`: previews longer than
80 UTF-16 code units keep the first 77 code units and gain the three
ASCII dots of the string literal in the source. -/
def truncatePreview (replyToPreview : List Nat) : List Nat :=
  if replyToPreview.length > 80 then
    replyToPreview.take 77 ++ [46, 46, 46]
  else replyToPreview

/-- The payload object built by `encryptReply` (which then stringifies it
and calls `encryptMessage`). -/
def encryptReplyPayload (text replyToTxid replyToPreview : List Nat) :
    ReplyPayload :=
  { text := text
    replyToTxid := replyToTxid
    replyToPreview := truncatePreview replyToPreview }

/-- UTF-8 byte count of a list of UTF-16 code units outside the surrogate
range (one byte below 0x80, two below 0x800, three otherwise). -/
def utf16UnitsUtf8Length (units : List Nat) : Nat :=
  (units.map (fun u => if u < 0x80 then 1 else if u < 0x800 then 2 else 3)).sum

/-- Character of the standard base64 alphabet at index `n < 64`. -/
def b64Char (n : Nat) : Nat :=
  if n < 26 then 65 + n
  else if n < 52 then 97 + (n - 26)
  else if n < 62 then 48 + (n - 52)
  else if n = 62 then 43
  else 47

/-- Index of a standard base64 alphabet character, `none` outside the
alphabet. -/
def b64Val (c : Nat) : Option Nat :=
  if 65 ≤ c ∧ c ≤ 90 then some (c - 65)
  else if 97 ≤ c ∧ c ≤ 122 then some (c - 97 + 26)
  else if 48 ≤ c ∧ c ≤ 57 then some (c - 48 + 52)
  else if c = 43 then some 62
  else if c = 47 then some 63
  else none

/-- Standard base64 encoding with `=` padding (the behaviour of `btoa` on
a binary string of the input bytes). -/
def base64Encode : Bytes → Bytes
  | [] => []
  | [b0] => [b64Char (b0 / 4), b64Char (b0 % 4 * 16), 61, 61]
  | [b0, b1] =>
      [b64Char (b0 / 4), b64Char (b0 % 4 * 16 + b1 / 16),
        b64Char (b1 % 16 * 4), 61]
  | b0 :: b1 :: b2 :: rest =>
      b64Char (b0 / 4) :: b64Char (b0 % 4 * 16 + b1 / 16) ::
        b64Char (b1 % 16 * 4 + b2 / 64) :: b64Char (b2 % 64) ::
        base64Encode rest

/-- Standard base64 decoding (the behaviour of `atob`, strict about
alphabet and grouping); failure models the thrown `InvalidCharacterError`. -/
def base64Decode : Bytes → Option Bytes
  | [] => some []
  | c0 :: c1 :: c2 :: c3 :: rest =>
      match b64Val c0, b64Val c1 with
      | some v0, some v1 =>
          if c2 = 61 ∧ c3 = 61 ∧ rest = [] then some [v0 * 4 + v1 / 16]
          else if c3 = 61 ∧ rest = [] then
            match b64Val c2 with
            | some v2 => some [v0 * 4 + v1 / 16, v1 % 16 * 16 + v2 / 4]
            | none => none
          else
            match b64Val c2, b64Val c3 with
            | some v2, some v3 =>
                match base64Decode rest with
                | some bs =>
                    some ((v0 * 4 + v1 / 16) :: (v1 % 16 * 16 + v2 / 4) ::
                      (v2 % 4 * 64 + v3) :: bs)
                | none => none
            | _, _ => none
      | _, _ => none
  | _ => none

/-- Base64url character substitution applied after `btoa` (`+` to `-`,
`/` to `_`). -/
def urlmapChar (c : Nat) : Nat :=
  if c = 43 then 45 else if c = 47 then 95 else c

/-- Inverse substitution applied before `atob` (`-` to `+`, `_` to `/`). -/
def unmapChar (c : Nat) : Nat :=
  if c = 45 then 43 else if c = 95 then 47 else c

/-- Encodes bytes to base64url (`toBase64Url` in `src/crypto/psk-uri.ts`):
substitute the two special characters and strip the trailing `=` padding.
In base64 output `=` occurs only as trailing padding, so stripping the
trailing run keeps exactly the maximal padding-free front. -/
def toBase64Url (data : Bytes) : Bytes :=
  ((base64Encode data).map urlmapChar).takeWhile (fun c => c ≠ 61)

/-- Decodes base64url (`fromBase64Url` in `src/crypto/psk-uri.ts`):
substitute back, re-pad to a multiple of four, decode. -/
def fromBase64Url (str : Bytes) : Option Bytes :=
  let base64 := str.map unmapChar
  let padded :=
    if base64.length % 4 = 2 then base64 ++ [61, 61]
    else if base64.length % 4 = 3 then base64 ++ [61]
    else base64
  base64Decode padded

/-- Characters `encodeURIComponent` leaves unescaped: letters, digits, and
`- _ . ! ~ * ' ( )`. -/
def isUnreservedURIByte (b : Nat) : Bool :=
  decide ((65 ≤ b ∧ b ≤ 90) ∨ (97 ≤ b ∧ b ≤ 122) ∨ (48 ≤ b ∧ b ≤ 57)) ||
    (b == 45) || (b == 95) || (b == 46) || (b == 33) || (b == 126) ||
    (b == 42) || (b == 39) || (b == 40) || (b == 41)

/-- Upper-case hexadecimal digit of `n < 16`. -/
def hexDigitUpper (n : Nat) : Nat := if n < 10 then 48 + n else 55 + n

/-- Model of `encodeURIComponent` on the UTF-8 bytes of a string:
unreserved bytes pass through, every other byte is percent-escaped. -/
def percentEncode : Bytes → Bytes
  | [] => []
  | b :: rest =>
      (if isUnreservedURIByte b then [b]
       else [37, hexDigitUpper (b / 16), hexDigitUpper (b % 16)]) ++
        percentEncode rest

/-- Value of one hexadecimal digit character, upper or lower case. -/
def hexVal (c : Nat) : Option Nat :=
  if 48 ≤ c ∧ c ≤ 57 then some (c - 48)
  else if 65 ≤ c ∧ c ≤ 70 then some (c - 55)
  else if 97 ≤ c ∧ c ≤ 102 then some (c - 87)
  else none

/-- Component decoding of `URLSearchParams`
(application/x-www-form-urlencoded): `+` becomes a space, `%XX` decodes,
malformed escapes pass through. -/
def formDecode : Bytes → Bytes
  | [] => []
  | b :: rest =>
      if b = 43 then 32 :: formDecode rest
      else if b = 37 then
        match rest with
        | h1 :: h2 :: rest2 =>
            match hexVal h1, hexVal h2 with
            | some v1, some v2 => (v1 * 16 + v2) :: formDecode rest2
            | _, _ => 37 :: formDecode (h1 :: h2 :: rest2)
        | [] => [37]
        | [h1] => 37 :: formDecode [h1]
      else b :: formDecode rest
termination_by l => l.length
decreasing_by all_goals simp [List.length_cons] <;> omega

/-- Splits a byte list on a separator byte. -/
def splitOnByte (sep : Nat) : Bytes → List Bytes
  | [] => [[]]
  | b :: rest =>
      if b = sep then [] :: splitOnByte sep rest
      else
        match splitOnByte sep rest with
        | [] => [[b]]
        | fst :: others => (b :: fst) :: others

/-- Splits one query segment at its first `=` (name, value); a segment
without `=` has no value. -/
def splitFirstEq : Bytes → Bytes × Option Bytes
  | [] => ([], none)
  | b :: rest =>
      if b = 61 then ([], some rest)
      else
        let kv := splitFirstEq rest
        (b :: kv.1, kv.2)

/-- Model of `new URLSearchParams(query).get(name)`: split on `&`, skip
empty segments, decode names and values, return the first match. -/
def searchParamsGet (query : Bytes) (name : Bytes) : Option Bytes :=
  ((splitOnByte 38 query).filter (fun p => !p.isEmpty)).findSome?
    (fun p =>
      let kv := splitFirstEq p
      if formDecode kv.1 = name then some (formDecode (kv.2.getD []))
      else none)

/-- Creates a PSK exchange URI (`createPSKExchangeURI` in
`src/crypto/psk-uri.ts`); strings are modelled as UTF-8 bytes, and an
empty or absent label adds no label parameter. -/
def createPSKExchangeURI (address : Bytes) (psk : Bytes)
    (label : Option Bytes) : Bytes :=
  asciiBytes "algochat-psk://v1?addr=" ++ percentEncode address ++
    asciiBytes "&psk=" ++ toBase64Url psk ++
    (match label with
     | some l =>
         if l.length > 0 then asciiBytes "&label=" ++ percentEncode l
         else []
     | none => [])

/-- Parses a PSK exchange URI (`parsePSKExchangeURI` in
`src/crypto/psk-uri.ts`): requires the scheme, a nonempty `addr`, and a
`psk` that decodes to exactly 32 bytes; `label` is optional. -/
def parsePSKExchangeURI (uri : Bytes) :
    Except CodecError (Bytes × Bytes × Option Bytes) :=
  let scheme := asciiBytes "algochat-psk://v1?"
  if uri.take scheme.length ≠ scheme then .error .uriInvalid
  else
    let queryString := uri.drop scheme.length
    match searchParamsGet queryString (asciiBytes "addr") with
    | none => .error .uriInvalid
    | some address =>
        if address.isEmpty then .error .uriInvalid
        else
          match searchParamsGet queryString (asciiBytes "psk") with
          | none => .error .uriInvalid
          | some pskParam =>
              if pskParam.isEmpty then .error .uriInvalid
              else
                match fromBase64Url pskParam with
                | none => .error .uriInvalid
                | some psk =>
                    if psk.length ≠ 32 then .error .uriInvalid
                    else
                      .ok (address, psk,
                        searchParamsGet queryString (asciiBytes "label"))

-- ================= THEOREMS =================

/-- Toy AEAD correctness: opening with the sealing key and nonce returns
the plaintext. -/
theorem toyOpen_toySeal (k n m : Bytes) : toyOpen k n (toySeal k n m) = some m := by
  simp [toySeal, toyOpen, List.take_left, List.drop_left]

/-- Toy AEAD soundness: opening with a different key fails. -/
theorem toyOpen_wrong_key (k n m k' : Bytes) (h : k' ≠ k) :
    toyOpen k' n (toySeal k n m) = none := by
  by_cases hl : k.length = k'.length
  · have ht : (k ++ (n.length :: (n ++ m))).take k'.length = k := by
      rw [← hl, List.take_left]
    simp only [toySeal, toyOpen]
    rw [if_neg]
    intro ⟨h1, h2⟩
    rw [ht] at h2
    exact h (h2.symm)
  · simp only [toySeal, toyOpen]
    rw [if_neg]
    intro ⟨h1, h2⟩
    exact hl h1
/-- Toy Diffie-Hellman commutativity. -/
theorem toyDh_comm (a b : Bytes) : toyDh a (toyBase b) = toyDh b (toyBase a) := by
  simp [toyDh, toyBase, List.prod_append, List.prod_replicate, ← pow_mul]
  rw [Nat.mul_comm]

/-- CLAIM C5. The two-level ratchet composes the session and position
derivations with session size 100, and counter 100 lands on position 0 of
session 1. -/
theorem claim_C5_two_level_ratchet (P : CryptoPrims) (initialPSK : Bytes)
    (n : Nat) :
    derivePSKAtCounter P initialPSK n =
      derivePositionPSK P (deriveSessionPSK P initialPSK (n / 100))
        (n % 100) ∧
      derivePSKAtCounter P initialPSK 100 =
        derivePositionPSK P (deriveSessionPSK P initialPSK 1) 0 :=
  ⟨rfl, rfl⟩

/-- CLAIM C3 (Standard half). Decoding the encoding of a valid Standard
envelope returns the envelope. -/
theorem std_decode_encode (E : ChatEnvelope) (h : E.Valid) :
    decodeEnvelope (encodeEnvelope E) = .ok E := by
  obtain ⟨hv, hp, hs, hep, hn, hk, hc⟩ := h
  have henc : encodeEnvelope E =
      E.version :: E.protocolId ::
        (E.senderPublicKey ++ (E.ephemeralPublicKey ++ (E.nonce ++
          (E.encryptedSenderKey ++ E.ciphertext)))) := by
    simp [encodeEnvelope]
  rw [henc]
  have d2 : (E.version :: E.protocolId ::
      (E.senderPublicKey ++ (E.ephemeralPublicKey ++ (E.nonce ++
        (E.encryptedSenderKey ++ E.ciphertext))))).drop 2 =
      E.senderPublicKey ++ (E.ephemeralPublicKey ++ (E.nonce ++
        (E.encryptedSenderKey ++ E.ciphertext))) := rfl
  have d34 : (E.version :: E.protocolId ::
      (E.senderPublicKey ++ (E.ephemeralPublicKey ++ (E.nonce ++
        (E.encryptedSenderKey ++ E.ciphertext))))).drop 34 =
      E.ephemeralPublicKey ++ (E.nonce ++
        (E.encryptedSenderKey ++ E.ciphertext)) := by
    rw [show (34 : Nat) = 2 + 32 from rfl, ← List.drop_drop, d2,
      List.drop_left' hs]
  have d66 : (E.version :: E.protocolId ::
      (E.senderPublicKey ++ (E.ephemeralPublicKey ++ (E.nonce ++
        (E.encryptedSenderKey ++ E.ciphertext))))).drop 66 =
      E.nonce ++ (E.encryptedSenderKey ++ E.ciphertext) := by
    rw [show (66 : Nat) = 34 + 32 from rfl, ← List.drop_drop, d34,
      List.drop_left' hep]
  have d78 : (E.version :: E.protocolId ::
      (E.senderPublicKey ++ (E.ephemeralPublicKey ++ (E.nonce ++
        (E.encryptedSenderKey ++ E.ciphertext))))).drop 78 =
      E.encryptedSenderKey ++ E.ciphertext := by
    rw [show (78 : Nat) = 66 + 12 from rfl, ← List.drop_drop, d66,
      List.drop_left' hn]
  have d126 : (E.version :: E.protocolId ::
      (E.senderPublicKey ++ (E.ephemeralPublicKey ++ (E.nonce ++
        (E.encryptedSenderKey ++ E.ciphertext))))).drop 126 =
      E.ciphertext := by
    rw [show (126 : Nat) = 78 + 48 from rfl, ← List.drop_drop, d78,
      List.drop_left' hk]
  rw [decodeEnvelope]
  rw [if_neg (by simp)]
  simp only [List.headI, List.tail]
  rw [if_neg (by simp [hp, PROTOCOL.PROTOCOL_ID])]
  rw [if_neg (by simp [hv, PROTOCOL.VERSION])]
  rw [if_neg (by
    simp only [List.length_cons, List.length_append, hs, hep, hn, hk,
      PROTOCOL.HEADER_SIZE, PROTOCOL.TAG_SIZE]
    omega)]
  rw [d2, d34, d66, d78, d126]
  rw [List.take_left' hs, List.take_left' hep, List.take_left' hn,
    List.take_left' hk]

/-- CLAIM C3 (PSK half). Decoding the encoding of a valid PSK envelope
returns the envelope; the big-endian counter bytes reassemble to the
original counter because it fits in 32 bits. -/
theorem psk_decode_encode (E : PSKEnvelope) (h : E.Valid) :
    decodePSKEnvelope (encodePSKEnvelope E) = .ok E := by
  obtain ⟨hv, hp, hcnt, hs, hep, hn, hk, hc⟩ := h
  have henc : encodePSKEnvelope E =
      E.version :: E.protocolId ::
        (E.ratchetCounter / 2 ^ 24 % 256) :: (E.ratchetCounter / 2 ^ 16 % 256) ::
        (E.ratchetCounter / 2 ^ 8 % 256) :: (E.ratchetCounter % 256) ::
        (E.senderPublicKey ++ (E.ephemeralPublicKey ++ (E.nonce ++
          (E.encryptedSenderKey ++ E.ciphertext)))) := by
    simp [encodePSKEnvelope, enc32]
    omega
  rw [henc]
  set b0 := E.ratchetCounter / 2 ^ 24 % 256 with hb0
  set b1 := E.ratchetCounter / 2 ^ 16 % 256 with hb1
  set b2 := E.ratchetCounter / 2 ^ 8 % 256 with hb2
  set b3 := E.ratchetCounter % 256 with hb3
  set R := E.senderPublicKey ++ (E.ephemeralPublicKey ++ (E.nonce ++
    (E.encryptedSenderKey ++ E.ciphertext))) with hR
  have d6 : (E.version :: E.protocolId :: b0 :: b1 :: b2 :: b3 :: R).drop 6 =
      R := rfl
  have d38 : (E.version :: E.protocolId :: b0 :: b1 :: b2 :: b3 :: R).drop 38 =
      E.ephemeralPublicKey ++ (E.nonce ++ (E.encryptedSenderKey ++
        E.ciphertext)) := by
    rw [show (38 : Nat) = 6 + 32 from rfl, ← List.drop_drop, d6, hR,
      List.drop_left' hs]
  have d70 : (E.version :: E.protocolId :: b0 :: b1 :: b2 :: b3 :: R).drop 70 =
      E.nonce ++ (E.encryptedSenderKey ++ E.ciphertext) := by
    rw [show (70 : Nat) = 38 + 32 from rfl, ← List.drop_drop, d38,
      List.drop_left' hep]
  have d82 : (E.version :: E.protocolId :: b0 :: b1 :: b2 :: b3 :: R).drop 82 =
      E.encryptedSenderKey ++ E.ciphertext := by
    rw [show (82 : Nat) = 70 + 12 from rfl, ← List.drop_drop, d70,
      List.drop_left' hn]
  have d130 : (E.version :: E.protocolId :: b0 :: b1 :: b2 :: b3 :: R).drop 130 =
      E.ciphertext := by
    rw [show (130 : Nat) = 82 + 48 from rfl, ← List.drop_drop, d82,
      List.drop_left' hk]
  rw [decodePSKEnvelope]
  rw [if_neg (by simp)]
  rw [if_neg (by simp [hv, PSK_PROTOCOL.VERSION])]
  rw [if_neg (by simp [hp, PSK_PROTOCOL.PROTOCOL_ID])]
  rw [if_neg (by
    simp only [List.length_cons, hR, List.length_append, hs, hep, hn, hk,
      PSK_PROTOCOL.HEADER_SIZE, PSK_PROTOCOL.TAG_SIZE]
    omega)]
  have hd2 : (List.drop 2 (E.version :: E.protocolId :: b0 :: b1 :: b2 ::
      b3 :: R)).headI = b0 := rfl
  have hd3 : (List.drop 3 (E.version :: E.protocolId :: b0 :: b1 :: b2 ::
      b3 :: R)).headI = b1 := rfl
  have hd4 : (List.drop 4 (E.version :: E.protocolId :: b0 :: b1 :: b2 ::
      b3 :: R)).headI = b2 := rfl
  have hd5 : (List.drop 5 (E.version :: E.protocolId :: b0 :: b1 :: b2 ::
      b3 :: R)).headI = b3 := rfl
  have hdec : dec32 b0 b1 b2 b3 = E.ratchetCounter := by
    rw [dec32, hb0, hb1, hb2, hb3]
    omega
  rw [hd2, hd3, hd4, hd5, hdec, d6, d38, d70, d82, d130, hR,
    List.take_left' hs, List.take_left' hep, List.take_left' hn,
    List.take_left' hk]
  rfl

/-- CLAIM C6. `validateCounter` accepts exactly the counters that were not
seen before and lie within the ±200 window around `peerLastCounter`. -/
theorem claim_C6_replay_window_validation (s : PSKState) (c : Int) :
    validateCounter s c = true ↔
      c ∉ s.seenCounters ∧
        s.peerLastCounter - 200 ≤ c ∧ c ≤ s.peerLastCounter + 200 := by
  simp [validateCounter, PSK_PROTOCOL.COUNTER_WINDOW]

/-- Elements of the seen set after `recordReceive` come from the previous
seen set or are the newly recorded counter. -/
theorem mem_recordReceive_seen {s : PSKState} {c x : Int}
    (hx : x ∈ (recordReceive s c).seenCounters) :
    (x ∈ s.seenCounters ∨ x = c) ∧
      max s.peerLastCounter c - 200 ≤ x := by
  unfold recordReceive at hx
  simp only [List.mem_filter, Bool.not_eq_eq_eq_not, Bool.not_true,
    decide_eq_false_iff_not, not_lt] at hx
  obtain ⟨hmem, hge⟩ := hx
  refine ⟨?_, by simpa [PSK_PROTOCOL.COUNTER_WINDOW] using hge⟩
  by_cases hc : c ∈ s.seenCounters <;> simp [hc] at hmem <;> tauto

/-- CLAIM C7. Every state reachable from `createPSKState` keeps all seen
counters inside the window `[peerLastCounter - 200, peerLastCounter]`;
`recordReceive` leaves the send counter unchanged and `advanceSendCounter`
strictly increases it. -/
theorem claim_C7_replay_state_invariant (s : PSKState)
    (h : ReachablePSKState s) :
    (∀ x ∈ s.seenCounters,
        s.peerLastCounter - 200 ≤ x ∧ x ≤ s.peerLastCounter) ∧
      (∀ c : Int, (recordReceive s c).sendCounter = s.sendCounter) ∧
      s.sendCounter < ((advanceSendCounter s).2).sendCounter := by
  refine ⟨?_, fun c => rfl, by simp [advanceSendCounter]⟩
  induction h with
  | init => intro x hx; simp [createPSKState] at hx
  | recv s c hs ih =>
      intro x hx
      obtain ⟨hmem, hlow⟩ := mem_recordReceive_seen hx
      have hup : x ≤ max s.peerLastCounter c := by
        rcases hmem with hold | rfl
        · exact le_trans (ih x hold).2 (le_max_left _ _)
        · exact le_max_right _ _
      have hpeer : (recordReceive s c).peerLastCounter =
          max s.peerLastCounter c := rfl
      rw [hpeer]
      exact ⟨hlow, hup⟩
  | send s hs ih =>
      intro x hx
      exact ih x hx

/-- CLAIM C3. Envelope codec round-trip for both wire formats: decoding
the encoding of any valid Standard or PSK envelope returns the envelope. -/
theorem claim_C3_envelope_codec_roundtrip (E : ChatEnvelope)
    (F : PSKEnvelope) (hE : E.Valid) (hF : F.Valid) :
    decodeEnvelope (encodeEnvelope E) = .ok E ∧
      decodePSKEnvelope (encodePSKEnvelope F) = .ok F :=
  ⟨std_decode_encode E hE, psk_decode_encode F hF⟩

/-- Witness for CLAIM C3 at the concrete envelopes above. -/
theorem claim_C3_envelope_codec_roundtrip_witness :
    (stdEnvelopeEx.Valid ∧ pskEnvelopeEx.Valid) ∧
      decodeEnvelope (encodeEnvelope stdEnvelopeEx) = .ok stdEnvelopeEx ∧
      decodePSKEnvelope (encodePSKEnvelope pskEnvelopeEx) = .ok pskEnvelopeEx :=
  ⟨⟨by unfold ChatEnvelope.Valid; decide, by unfold PSKEnvelope.Valid; decide⟩,
    claim_C3_envelope_codec_roundtrip stdEnvelopeEx pskEnvelopeEx
      (by unfold ChatEnvelope.Valid; decide)
      (by unfold PSKEnvelope.Valid; decide)⟩

/-- Witness for CLAIM C7 at a concrete reachable state. -/
theorem claim_C7_replay_state_invariant_witness :
    (∀ x ∈ (recordReceive createPSKState 5).seenCounters,
        (recordReceive createPSKState 5).peerLastCounter - 200 ≤ x ∧
          x ≤ (recordReceive createPSKState 5).peerLastCounter) ∧
      (∀ c : Int,
        (recordReceive (recordReceive createPSKState 5) c).sendCounter =
          (recordReceive createPSKState 5).sendCounter) ∧
      (recordReceive createPSKState 5).sendCounter <
        ((advanceSendCounter (recordReceive createPSKState 5)).2).sendCounter :=
  claim_C7_replay_state_invariant _
    (ReachablePSKState.recv _ 5 ReachablePSKState.init)

/-- CLAIM C2. In the PSK (v1.1) encryptor and decryptors, the symmetric-key
HKDF takes as IKM the 64-byte concatenation of the ECDH shared secret with
the current ratchet PSK; the HKDF info is the string "AlgoChatV1-PSK"
followed by the sender then recipient public keys for the message key, and
"AlgoChatV1-PSK-SenderKey" followed by the sender public key for the
sender key — the same public-key material that follows the Standard
protocol tags "AlgoChatV1" and "AlgoChatV1-SenderKey". Both decryption
paths recompute keys of the same shape and recover the plaintext. -/
theorem claim_C2_psk_hybrid_keying (P : CryptoPrims)
    (m sPub rPub sSk rSk : Bytes) (currentPSK : Bytes) (ctr : Nat)
    (eph : X25519KeyPair) (nonce : Bytes)
    (hopen : ∀ k n pt, P.aeadOpen k n (P.aeadSeal k n pt) = some pt)
    (hdhR : P.dh rSk eph.publicKey = P.dh eph.privateKey rPub)
    (hdhS : P.dh sSk eph.publicKey = P.dh eph.privateKey sPub)
    (hssR : (P.dh eph.privateKey rPub).length = 32)
    (hssS : (P.dh eph.privateKey sPub).length = 32)
    (hpsk : currentPSK.length = 32)
    (hm : m.length ≤ 878) :
    ∃ env,
      encryptPSKMessage P m sPub rPub currentPSK ctr eph nonce = .ok env ∧
      env.ciphertext =
        P.aeadSeal
          (P.hkdf (P.dh eph.privateKey rPub ++ currentPSK) eph.publicKey
            (asciiBytes "AlgoChatV1-PSK" ++ sPub ++ rPub) 32)
          nonce m ∧
      env.encryptedSenderKey =
        P.aeadSeal
          (P.hkdf (P.dh eph.privateKey sPub ++ currentPSK) eph.publicKey
            (asciiBytes "AlgoChatV1-PSK-SenderKey" ++ sPub) 32)
          nonce
          (P.hkdf (P.dh eph.privateKey rPub ++ currentPSK) eph.publicKey
            (asciiBytes "AlgoChatV1-PSK" ++ sPub ++ rPub) 32) ∧
      (P.dh eph.privateKey rPub ++ currentPSK).length = 64 ∧
      (P.dh eph.privateKey sPub ++ currentPSK).length = 64 ∧
      ENCRYPTION_INFO_TAG ++ sPub ++ rPub =
        asciiBytes "AlgoChatV1" ++ sPub ++ rPub ∧
      SENDER_KEY_INFO_TAG ++ sPub = asciiBytes "AlgoChatV1-SenderKey" ++ sPub ∧
      decryptPSKAsRecipient P env rSk rPub currentPSK = .ok m ∧
      decryptPSKAsSender P env sSk sPub currentPSK = .ok m := by
  refine ⟨{ version := PSK_PROTOCOL.VERSION
            protocolId := PSK_PROTOCOL.PROTOCOL_ID
            ratchetCounter := ctr
            senderPublicKey := sPub
            ephemeralPublicKey := eph.publicKey
            nonce := nonce
            encryptedSenderKey :=
              P.aeadSeal
                (deriveSenderKey P (P.dh eph.privateKey sPub) currentPSK
                  eph.publicKey sPub) nonce
                (deriveHybridSymmetricKey P (P.dh eph.privateKey rPub)
                  currentPSK eph.publicKey sPub rPub)
            ciphertext :=
              P.aeadSeal
                (deriveHybridSymmetricKey P (P.dh eph.privateKey rPub)
                  currentPSK eph.publicKey sPub rPub) nonce m },
      ?_, rfl, rfl, ?_, ?_, rfl, rfl, ?_, ?_⟩
  · rw [encryptPSKMessage, if_neg (by simp only [PSK_PROTOCOL.MAX_PAYLOAD_SIZE]; omega)]
  · rw [List.length_append, hssR, hpsk]
  · rw [List.length_append, hssS, hpsk]
  · simp [decryptPSKAsRecipient, deriveHybridSymmetricKey, hdhR, hopen]
    rfl
  · simp [decryptPSKAsSender, deriveSenderKey, deriveHybridSymmetricKey,
      hdhS, hopen]
    rfl

/-- Witness for CLAIM C2 at the toy primitives and concrete keys. -/
theorem claim_C2_psk_hybrid_keying_witness :
    ∃ env,
      encryptPSKMessage toyPrims [104, 105] pkS pkR pskX 7 ephEx nonceEx =
        .ok env ∧
      env.ciphertext =
        toyPrims.aeadSeal
          (toyPrims.hkdf (toyPrims.dh ephEx.privateKey pkR ++ pskX)
            ephEx.publicKey (asciiBytes "AlgoChatV1-PSK" ++ pkS ++ pkR) 32)
          nonceEx [104, 105] ∧
      env.encryptedSenderKey =
        toyPrims.aeadSeal
          (toyPrims.hkdf (toyPrims.dh ephEx.privateKey pkS ++ pskX)
            ephEx.publicKey
            (asciiBytes "AlgoChatV1-PSK-SenderKey" ++ pkS) 32)
          nonceEx
          (toyPrims.hkdf (toyPrims.dh ephEx.privateKey pkR ++ pskX)
            ephEx.publicKey (asciiBytes "AlgoChatV1-PSK" ++ pkS ++ pkR) 32) ∧
      (toyPrims.dh ephEx.privateKey pkR ++ pskX).length = 64 ∧
      (toyPrims.dh ephEx.privateKey pkS ++ pskX).length = 64 ∧
      ENCRYPTION_INFO_TAG ++ pkS ++ pkR =
        asciiBytes "AlgoChatV1" ++ pkS ++ pkR ∧
      SENDER_KEY_INFO_TAG ++ pkS =
        asciiBytes "AlgoChatV1-SenderKey" ++ pkS ∧
      decryptPSKAsRecipient toyPrims env skR pkR pskX = .ok [104, 105] ∧
      decryptPSKAsSender toyPrims env skS pkS pskX = .ok [104, 105] :=
  claim_C2_psk_hybrid_keying toyPrims [104, 105] pkS pkR skS skR pskX 7
    ephEx nonceEx (fun k n pt => toyOpen_toySeal k n pt)
    (toyDh_comm skR skE) (toyDh_comm skS skE)
    (by decide) (by decide) (by decide) (by decide)

/-- Payloads that do not begin with the byte 0x7b are classified as plain
text: they are not key-publish sentinels and parse to themselves. -/
theorem plain_payload_classification (pt : Bytes) (h : pt.headI ≠ 0x7b) :
    isKeyPublishPayload pt = false ∧
      parseMessagePayload pt =
        { text := pt, replyToId := none, replyToPreview := none } := by
  constructor
  · rw [isKeyPublishPayload, if_pos (Or.inr h)]
  · rw [parseMessagePayload, if_neg (fun hc => h hc.2)]

/-- CLAIM C1 (amended). Seal/open round-trip for plaintexts that do not
begin with the byte 0x7b: both the recipient and the sender recover the
plaintext as the text of the decrypted content. -/
theorem claim_C1_seal_open_roundtrip (P : CryptoPrims)
    (S R eph : X25519KeyPair) (nonce : Bytes) (m : Bytes)
    (hopen : ∀ k n pt, P.aeadOpen k n (P.aeadSeal k n pt) = some pt)
    (hdh : ∀ a b, P.dh a (P.basePub b) = P.dh b (P.basePub a))
    (hS : S.publicKey = P.basePub S.privateKey)
    (hR : R.publicKey = P.basePub R.privateKey)
    (hE : eph.publicKey = P.basePub eph.privateKey)
    (hm : m.length ≤ 882)
    (hjson : m.headI ≠ 0x7b) :
    ∃ env,
      encryptMessage P m S.publicKey R.publicKey none eph nonce = .ok env ∧
      decryptMessage P env R.privateKey R.publicKey none =
        .ok (some { text := m, replyToId := none, replyToPreview := none }) ∧
      decryptMessage P env S.privateKey S.publicKey none =
        .ok (some { text := m, replyToId := none, replyToPreview := none }) := by
  obtain ⟨hnotkp, hparse⟩ := plain_payload_classification m hjson
  have hsecR : P.dh R.privateKey eph.publicKey =
      P.dh eph.privateKey R.publicKey := by
    rw [hE, hR]
    exact hdh R.privateKey eph.privateKey
  have hsecS : P.dh S.privateKey eph.publicKey =
      P.dh eph.privateKey S.publicKey := by
    rw [hE, hS]
    exact hdh S.privateKey eph.privateKey
  refine ⟨{ version := PROTOCOL.VERSION
            protocolId := PROTOCOL.PROTOCOL_ID
            senderPublicKey := S.publicKey
            ephemeralPublicKey := eph.publicKey
            nonce := nonce
            encryptedSenderKey :=
              P.aeadSeal
                (P.hkdf (P.dh eph.privateKey S.publicKey) eph.publicKey
                  (SENDER_KEY_INFO_TAG ++ S.publicKey) 32) nonce
                (P.hkdf (P.dh eph.privateKey R.publicKey) eph.publicKey
                  (ENCRYPTION_INFO_TAG ++ S.publicKey ++ R.publicKey) 32)
            ciphertext :=
              P.aeadSeal
                (P.hkdf (P.dh eph.privateKey R.publicKey) eph.publicKey
                  (ENCRYPTION_INFO_TAG ++ S.publicKey ++ R.publicKey) 32)
                nonce m },
    ?_, ?_, ?_⟩
  · rw [encryptMessage, if_neg (by simp only [PROTOCOL.MAX_PAYLOAD_SIZE]; omega)]
    rfl
  · by_cases hRS : R.publicKey = S.publicKey
    · simp only [decryptMessage, uint8ArrayEquals, hRS, beq_self_eq_true,
        if_true, decryptAsSender, deriveIKM, Bind.bind, Except.bind]
      rw [hsecR, hRS]
      simp [hopen, hnotkp, hparse, pure, Except.pure]
    · simp only [decryptMessage, uint8ArrayEquals, decryptAsRecipient,
        deriveIKM, Bind.bind, Except.bind]
      rw [if_neg (by simp [hRS])]
      rw [hsecR]
      simp [hopen, hnotkp, hparse, pure, Except.pure]
  · simp only [decryptMessage, uint8ArrayEquals, beq_self_eq_true, if_true,
      decryptAsSender, deriveIKM, Bind.bind, Except.bind]
    rw [hsecS]
    simp [hopen, hnotkp, hparse, pure, Except.pure]

set_option maxRecDepth 100000 in
/-- CLAIM C1 counterexample. For the JSON plaintext mJsonEx (13 bytes,
within the 882-byte bound), the recipient-side round-trip yields the
embedded text field, not the plaintext itself. -/
theorem claim_C1_seal_open_roundtrip_counterexample :
    mJsonEx.length ≤ 882 ∧
      Except.bind (encryptMessage toyPrims mJsonEx pkS pkR none ephEx nonceEx)
        (fun env => decryptMessage toyPrims env skR pkR none) =
        .ok (some ⟨[104, 105], none, none⟩) ∧
      ([104, 105] : Bytes) ≠ mJsonEx :=
  ⟨by decide, by rfl, by decide⟩

/-- Witness for the amended CLAIM C1 at the toy primitives. -/
theorem claim_C1_seal_open_roundtrip_witness :
    ∃ env,
      encryptMessage toyPrims [104, 105] (toyBase skS) (toyBase skR) none
        ephEx nonceEx = .ok env ∧
      decryptMessage toyPrims env skR (toyBase skR) none =
        .ok (some ⟨[104, 105], none, none⟩) ∧
      decryptMessage toyPrims env skS (toyBase skS) none =
        .ok (some ⟨[104, 105], none, none⟩) :=
  claim_C1_seal_open_roundtrip toyPrims
    { privateKey := skS, publicKey := toyBase skS }
    { privateKey := skR, publicKey := toyBase skR }
    ephEx nonceEx [104, 105]
    (fun k n pt => toyOpen_toySeal k n pt)
    (fun a b => toyDh_comm a b)
    rfl rfl rfl (by decide) (by decide)

/-- CLAIM C4. Cross-key rejection: opening a sealed Standard envelope with
a key pair whose public key differs from the envelope sender key (so the
recipient path runs) and whose derived AEAD key is not the sealing key
fails with DecryptionFailed. -/
theorem claim_C4_cross_key_rejection (P : CryptoPrims)
    (m sPub rPub aSk aPk : Bytes) (eph : X25519KeyPair) (nonce : Bytes)
    (hopenWrong : ∀ k n pt k', k' ≠ k →
      P.aeadOpen k' n (P.aeadSeal k n pt) = none)
    (hpkNe : aPk ≠ sPub)
    (hkeyNe : P.hkdf (P.dh aSk eph.publicKey) eph.publicKey
        (ENCRYPTION_INFO_TAG ++ sPub ++ aPk) 32 ≠
      P.hkdf (P.dh eph.privateKey rPub) eph.publicKey
        (ENCRYPTION_INFO_TAG ++ sPub ++ rPub) 32)
    (hm : m.length ≤ 882) :
    ∃ env,
      encryptMessage P m sPub rPub none eph nonce = .ok env ∧
      decryptMessage P env aSk aPk none = .error .decryptionFailed := by
  refine ⟨{ version := PROTOCOL.VERSION
            protocolId := PROTOCOL.PROTOCOL_ID
            senderPublicKey := sPub
            ephemeralPublicKey := eph.publicKey
            nonce := nonce
            encryptedSenderKey :=
              P.aeadSeal
                (P.hkdf (P.dh eph.privateKey sPub) eph.publicKey
                  (SENDER_KEY_INFO_TAG ++ sPub) 32) nonce
                (P.hkdf (P.dh eph.privateKey rPub) eph.publicKey
                  (ENCRYPTION_INFO_TAG ++ sPub ++ rPub) 32)
            ciphertext :=
              P.aeadSeal
                (P.hkdf (P.dh eph.privateKey rPub) eph.publicKey
                  (ENCRYPTION_INFO_TAG ++ sPub ++ rPub) 32) nonce m },
    ?_, ?_⟩
  · rw [encryptMessage, if_neg (by simp only [PROTOCOL.MAX_PAYLOAD_SIZE]; omega)]
    rfl
  · simp only [decryptMessage, uint8ArrayEquals, decryptAsRecipient,
      deriveIKM, Bind.bind, Except.bind]
    rw [if_neg (by simp [hpkNe])]
    rw [hopenWrong _ _ _ _ hkeyNe]

/-- Witness for CLAIM C4 at the toy primitives and a concrete third
party. -/
theorem claim_C4_cross_key_rejection_witness :
    ∃ env,
      encryptMessage toyPrims [104, 105] pkS pkR none ephEx nonceEx =
        .ok env ∧
      decryptMessage toyPrims env skA pkA none =
        .error .decryptionFailed :=
  claim_C4_cross_key_rejection toyPrims [104, 105] pkS pkR skA pkA ephEx
    nonceEx (fun k n pt k' h => toyOpen_wrong_key k n pt k' h)
    (by decide) (by decide) (by decide)

/-- CLAIM C9 (amended). Notes shorter than 32 bytes are ignored; every
note of at least 32 bytes yields a DiscoveredKey whose publicKey is the
first 32 bytes, and `isVerified` can be true only when the note is at
least 96 bytes long and an Ed25519 key was supplied. -/
theorem claim_C9_key_announcement_lengths
    (edVerify : Bytes → Bytes → Bytes → Bool) (note : Bytes)
    (ed : Option Bytes) :
    (note.length < 32 → parseKeyAnnouncement edVerify note ed = none) ∧
      (32 ≤ note.length →
        ∃ k, parseKeyAnnouncement edVerify note ed = some k ∧
          k.publicKey = note.take 32 ∧
          (k.isVerified = true → 96 ≤ note.length ∧ ed.isSome = true)) := by
  constructor
  · intro h
    rw [parseKeyAnnouncement, if_pos h]
  · intro h
    rw [parseKeyAnnouncement, if_neg (by omega)]
    refine ⟨_, rfl, rfl, ?_⟩
    intro hv
    cases ed with
    | none => simp at hv
    | some edpk =>
        by_cases h96 : 96 ≤ note.length
        · exact ⟨h96, rfl⟩
        · simp [h96] at hv

/-- CLAIM C9 counterexample. A 50-byte note (length outside the set
containing 32 and 96 and below the header size) is not ignored: the
parser returns a discovered key made of its first 32 bytes. -/
theorem claim_C9_key_announcement_counterexample :
    parseKeyAnnouncement (fun _ _ _ => false) (List.replicate 50 1) none =
        some { publicKey := List.replicate 32 1, isVerified := false } ∧
      (List.replicate 50 (1 : Nat)).length = 50 := by decide

/-- Witness for the amended CLAIM C9 at a concrete 50-byte note. -/
theorem claim_C9_key_announcement_lengths_witness :
    ((List.replicate 50 (1 : Nat)).length < 32 →
      parseKeyAnnouncement (fun _ _ _ => false) (List.replicate 50 1) none =
        none) ∧
      (32 ≤ (List.replicate 50 (1 : Nat)).length →
        ∃ k, parseKeyAnnouncement (fun _ _ _ => false)
            (List.replicate 50 1) none = some k ∧
          k.publicKey = (List.replicate 50 1).take 32 ∧
          (k.isVerified = true →
            96 ≤ (List.replicate 50 (1 : Nat)).length ∧
              (none : Option Bytes).isSome = true)) :=
  claim_C9_key_announcement_lengths (fun _ _ _ => false)
    (List.replicate 50 1) none

/-- All-ASCII code-unit lists have UTF-8 length equal to their unit
count. -/
theorem ascii_utf8_length (l : List Nat) (h : ∀ u ∈ l, u < 0x80) :
    utf16UnitsUtf8Length l = l.length := by
  induction l with
  | nil => rfl
  | cons a t ih =>
      have ha : a < 0x80 := h a (List.mem_cons_self a t)
      have ht : utf16UnitsUtf8Length t = t.length :=
        ih (fun u hu => h u (List.mem_cons_of_mem a hu))
      simp [utf16UnitsUtf8Length, ha] at ht ⊢
      omega

/-- CLAIM C10 (amended). The preview embedded by encryptReply is the
original when it has at most 80 UTF-16 code units, and otherwise its
first 77 code units followed by "..." (three ASCII dots); the embedded
preview never exceeds 80 code units, hence never exceeds 80 UTF-8 bytes
when the preview is ASCII. -/
theorem claim_C10_reply_preview_truncation (text txid p : List Nat) :
    (encryptReplyPayload text txid p).replyToPreview =
        (if 80 < p.length then p.take 77 ++ [46, 46, 46] else p) ∧
      (encryptReplyPayload text txid p).replyToPreview.length ≤ 80 ∧
      ((∀ u ∈ p, u < 0x80) →
        utf16UnitsUtf8Length
          (encryptReplyPayload text txid p).replyToPreview ≤ 80) := by
  have hlen : (encryptReplyPayload text txid p).replyToPreview.length ≤ 80 := by
    unfold encryptReplyPayload truncatePreview
    split_ifs with h
    · simp only [List.length_append, List.length_take, List.length_cons,
        List.length_nil]
      omega
    · simpa using Nat.le_of_not_lt h
  refine ⟨rfl, hlen, ?_⟩
  · intro hascii
    have hall : ∀ u ∈ (encryptReplyPayload text txid p).replyToPreview,
        u < 0x80 := by
      unfold encryptReplyPayload truncatePreview
      split_ifs with h
      · intro u hu
        rcases List.mem_append.mp hu with h1 | h2
        · exact hascii u (List.take_subset _ _ h1)
        · simp only [List.mem_cons, List.not_mem_nil, or_false] at h2
          rcases h2 with rfl | rfl | rfl <;> norm_num
      · exact fun u hu => hascii u hu
    rw [ascii_utf8_length _ hall]
    exact hlen

/-- CLAIM C10 counterexample. For an 81-character ASCII preview the
embedded preview ends in three ASCII dots, not the ellipsis character
U+2026; and for an 81-character preview of three-byte characters the
embedded preview occupies 234 UTF-8 bytes, far above 80. -/
theorem claim_C10_reply_preview_counterexample :
    (encryptReplyPayload [] [] (List.replicate 81 97)).replyToPreview =
        List.replicate 77 97 ++ [46, 46, 46] ∧
      (encryptReplyPayload [] [] (List.replicate 81 97)).replyToPreview ≠
        List.replicate 77 97 ++ [8230] ∧
      utf16UnitsUtf8Length
        (encryptReplyPayload [] [] (List.replicate 81 8364)).replyToPreview =
        234 := by decide

/-- Witness for the amended CLAIM C10 at a concrete 81-unit preview. -/
theorem claim_C10_reply_preview_truncation_witness :
    (encryptReplyPayload [] [] (List.replicate 81 97)).replyToPreview =
        (if 80 < (List.replicate 81 (97 : Nat)).length then
          (List.replicate 81 (97 : Nat)).take 77 ++ [46, 46, 46]
        else List.replicate 81 97) ∧
      (encryptReplyPayload [] [] (List.replicate 81 97)).replyToPreview.length ≤
        80 ∧
      ((∀ u ∈ List.replicate 81 (97 : Nat), u < 0x80) →
        utf16UnitsUtf8Length
          (encryptReplyPayload [] [] (List.replicate 81 97)).replyToPreview ≤
          80) :=
  claim_C10_reply_preview_truncation [] [] (List.replicate 81 97)

/-- Alphabet indexing round-trips below 64. -/
theorem b64Val_b64Char : ∀ n < 64, b64Val (b64Char n) = some n := by decide

/-- Alphabet characters are never the padding character. -/
theorem b64Char_ne_pad : ∀ n < 64, b64Char n ≠ 61 := by decide

/-- Every alphabet character equals one with a canonical index below 64
(out-of-range indices all map to the final character). -/
theorem b64Char_canonical (n : Nat) : ∃ m, m < 64 ∧ b64Char n = b64Char m := by
  by_cases h : n < 64
  · exact ⟨n, h, rfl⟩
  · refine ⟨63, by omega, ?_⟩
    unfold b64Char
    split_ifs <;> omega

/-- Every character of a base64 encoding is an alphabet character or the
padding character. -/
theorem mem_base64Encode (bs : Bytes) :
    ∀ c ∈ base64Encode bs, (∃ n, n < 64 ∧ c = b64Char n) ∨ c = 61 := by
  induction bs using base64Encode.induct with
  | case1 => simp [base64Encode]
  | case2 b0 =>
      intro c hc
      simp only [base64Encode, List.mem_cons, List.not_mem_nil,
        or_false] at hc
      rcases hc with rfl | rfl | rfl | rfl
      · exact Or.inl (b64Char_canonical _)
      · exact Or.inl (b64Char_canonical _)
      · exact Or.inr rfl
      · exact Or.inr rfl
  | case3 b0 b1 =>
      intro c hc
      simp only [base64Encode, List.mem_cons, List.not_mem_nil,
        or_false] at hc
      rcases hc with rfl | rfl | rfl | rfl
      · exact Or.inl (b64Char_canonical _)
      · exact Or.inl (b64Char_canonical _)
      · exact Or.inl (b64Char_canonical _)
      · exact Or.inr rfl
  | case4 b0 b1 b2 rest ih =>
      intro c hc
      simp only [base64Encode, List.mem_cons] at hc
      rcases hc with rfl | rfl | rfl | rfl | hmem
      · exact Or.inl (b64Char_canonical _)
      · exact Or.inl (b64Char_canonical _)
      · exact Or.inl (b64Char_canonical _)
      · exact Or.inl (b64Char_canonical _)
      · exact ih c hmem

/-- Base64 decoding inverts encoding on byte inputs. -/
theorem base64Decode_base64Encode :
    ∀ bs : Bytes, BytesWF bs → base64Decode (base64Encode bs) = some bs := by
  intro bs
  induction bs using base64Encode.induct with
  | case1 => intro _; rfl
  | case2 b0 =>
      intro hwf
      have hb0 : b0 < 256 := hwf b0 (by simp)
      have h0 := b64Val_b64Char (b0 / 4) (by omega)
      have h1 := b64Val_b64Char (b0 % 4 * 16) (by omega)
      simp only [base64Encode, base64Decode, h0, h1]
      rw [if_pos (by simp)]
      simp only [Option.some.injEq, List.cons.injEq, and_true]
      omega
  | case3 b0 b1 =>
      intro hwf
      have hb0 : b0 < 256 := hwf b0 (by simp)
      have hb1 : b1 < 256 := hwf b1 (by simp)
      have h0 := b64Val_b64Char (b0 / 4) (by omega)
      have h1 := b64Val_b64Char (b0 % 4 * 16 + b1 / 16) (by omega)
      have h2 := b64Val_b64Char (b1 % 16 * 4) (by omega)
      have hne2 := b64Char_ne_pad (b1 % 16 * 4) (by omega)
      simp only [base64Encode, base64Decode, h0, h1, h2]
      rw [if_neg (by simp [hne2]), if_pos (by simp)]
      simp only [Option.some.injEq, List.cons.injEq, and_true]
      omega
  | case4 b0 b1 b2 rest ih =>
      intro hwf
      have hb0 : b0 < 256 := hwf b0 (by simp)
      have hb1 : b1 < 256 := hwf b1 (by simp)
      have hb2 : b2 < 256 := hwf b2 (by simp)
      have hrest : BytesWF rest := fun b hb => hwf b (by simp [hb])
      have h0 := b64Val_b64Char (b0 / 4) (by omega)
      have h1 := b64Val_b64Char (b0 % 4 * 16 + b1 / 16) (by omega)
      have h2 := b64Val_b64Char (b1 % 16 * 4 + b2 / 64) (by omega)
      have h3 := b64Val_b64Char (b2 % 64) (by omega)
      have hne2 := b64Char_ne_pad (b1 % 16 * 4 + b2 / 64) (by omega)
      have hne3 := b64Char_ne_pad (b2 % 64) (by omega)
      simp only [base64Encode, base64Decode, h0, h1, h2, h3]
      rw [if_neg (by simp [hne2]), if_neg (by simp [hne3]), ih hrest]
      simp only [Option.some.injEq, List.cons.injEq, and_true]
      refine ⟨by omega, by omega, by omega⟩

/-- Encodings of inputs of length 2 mod 3 are a padding-free core followed
by one padding character; the core has length 3 mod 4. -/
theorem base64Encode_mod3_two :
    ∀ bs : Bytes, bs.length % 3 = 2 →
      ∃ core, base64Encode bs = core ++ [61] ∧
        (∀ c ∈ core, ∃ n, n < 64 ∧ c = b64Char n) ∧ core.length % 4 = 3 := by
  intro bs
  induction bs using base64Encode.induct with
  | case1 => intro h; simp at h
  | case2 b0 => intro h; simp at h
  | case3 b0 b1 =>
      intro _
      refine ⟨[b64Char (b0 / 4), b64Char (b0 % 4 * 16 + b1 / 16),
        b64Char (b1 % 16 * 4)], rfl, ?_, rfl⟩
      intro c hc
      simp only [List.mem_cons, List.not_mem_nil, or_false] at hc
      rcases hc with rfl | rfl | rfl <;> exact b64Char_canonical _
  | case4 b0 b1 b2 rest ih =>
      intro h
      have hr : rest.length % 3 = 2 := by
        simp only [List.length_cons] at h
        omega
      obtain ⟨core, hc, hm, hl⟩ := ih hr
      refine ⟨b64Char (b0 / 4) :: b64Char (b0 % 4 * 16 + b1 / 16) ::
        b64Char (b1 % 16 * 4 + b2 / 64) :: b64Char (b2 % 64) :: core, ?_, ?_, ?_⟩
      · simp [base64Encode, hc]
      · intro c hcm
        simp only [List.mem_cons] at hcm
        rcases hcm with rfl | rfl | rfl | rfl | hcm
        · exact b64Char_canonical _
        · exact b64Char_canonical _
        · exact b64Char_canonical _
        · exact b64Char_canonical _
        · exact hm c hcm
      · simp only [List.length_cons]
        omega

/-- Substitution round-trips on alphabet characters. -/
theorem unmap_urlmap_b64 :
    ∀ n < 64, unmapChar (urlmapChar (b64Char n)) = b64Char n := by decide

/-- Base64url characters avoid the separator, padding, plus and percent
characters. -/
theorem urlmap_b64_avoid :
    ∀ n < 64, urlmapChar (b64Char n) ≠ 61 ∧ urlmapChar (b64Char n) ≠ 38 ∧
      urlmapChar (b64Char n) ≠ 43 ∧ urlmapChar (b64Char n) ≠ 37 := by decide

/-- takeWhile keeps a padding-free front and drops the padding. -/
theorem takeWhile_append_pad (xs : Bytes) (h : ∀ x ∈ xs, x ≠ 61) :
    (xs ++ [61]).takeWhile (fun c => c ≠ 61) = xs := by
  induction xs with
  | nil => rfl
  | cons x rest ih =>
      have hx : x ≠ 61 := h x (by simp)
      simp only [List.cons_append, List.takeWhile_cons]
      rw [if_pos (by simpa using hx)]
      rw [ih (fun y hy => h y (by simp [hy]))]

/-- Base64url decoding inverts encoding for inputs of length 2 mod 3
(covering 32-byte keys). -/
theorem fromBase64Url_toBase64Url (bs : Bytes) (hwf : BytesWF bs)
    (hlen : bs.length % 3 = 2) :
    fromBase64Url (toBase64Url bs) = some bs := by
  obtain ⟨core, hcore, hmem, hl4⟩ := base64Encode_mod3_two bs hlen
  have hurl : toBase64Url bs = core.map urlmapChar := by
    rw [toBase64Url, hcore, List.map_append]
    have h61 : urlmapChar 61 = 61 := rfl
    simp only [List.map_cons, List.map_nil, h61]
    refine takeWhile_append_pad _ ?_
    intro x hx
    obtain ⟨c, hc, rfl⟩ := List.mem_map.mp hx
    obtain ⟨n, hn, rfl⟩ := hmem c hc
    exact (urlmap_b64_avoid n hn).1
  have hunmap : (core.map urlmapChar).map unmapChar = core := by
    rw [List.map_map]
    have : ∀ c ∈ core, (unmapChar ∘ urlmapChar) c = id c := by
      intro c hc
      obtain ⟨n, hn, rfl⟩ := hmem c hc
      exact unmap_urlmap_b64 n hn
    rw [List.map_congr_left this, List.map_id]
  rw [hurl, fromBase64Url]
  simp only [hunmap]
  rw [if_neg (by omega), if_pos (by simpa using hl4), ← hcore]
  exact base64Decode_base64Encode bs hwf

/-- Hexadecimal digits round-trip below 16. -/
theorem hexVal_hexDigitUpper : ∀ n < 16, hexVal (hexDigitUpper n) = some n := by
  decide

/-- Unreserved bytes are none of plus, percent, ampersand, equals. -/
theorem unreserved_not_special (b : Nat) (h : isUnreservedURIByte b = true) :
    b ≠ 43 ∧ b ≠ 37 ∧ b ≠ 38 ∧ b ≠ 61 := by
  refine ⟨?_, ?_, ?_, ?_⟩ <;> rintro rfl <;> exact absurd h (by decide)

/-- Unfolding lemma: form decoding of the empty list. -/
theorem formDecode_nil : formDecode [] = [] := by
  rw [formDecode.eq_def]

/-- Unfolding lemma: form decoding of a nonempty list. -/
theorem formDecode_cons (b : Nat) (rest : Bytes) :
    formDecode (b :: rest) =
      if b = 43 then 32 :: formDecode rest
      else if b = 37 then
        match rest with
        | h1 :: h2 :: rest2 =>
            match hexVal h1, hexVal h2 with
            | some v1, some v2 => (v1 * 16 + v2) :: formDecode rest2
            | _, _ => 37 :: formDecode (h1 :: h2 :: rest2)
        | [] => [37]
        | [h1] => 37 :: formDecode [h1]
      else b :: formDecode rest := by
  rw [formDecode.eq_def]
  rfl

/-- Form decoding inverts percent encoding on byte inputs. -/
theorem formDecode_percentEncode :
    ∀ bs : Bytes, BytesWF bs → formDecode (percentEncode bs) = bs := by
  intro bs
  induction bs with
  | nil => intro _; exact formDecode_nil
  | cons b rest ih =>
      intro hwf
      have hb : b < 256 := hwf b (by simp)
      have hr : BytesWF rest := fun x hx => hwf x (by simp [hx])
      by_cases hu : isUnreservedURIByte b
      · obtain ⟨h43, h37, _, _⟩ := unreserved_not_special b hu
        rw [percentEncode, if_pos hu, List.singleton_append]
        rw [formDecode_cons, if_neg h43, if_neg h37, ih hr]
      · rw [percentEncode, if_neg hu]
        simp only [List.cons_append, List.nil_append]
        rw [formDecode]
        rw [if_neg (by decide), if_pos rfl]
        simp only [hexVal_hexDigitUpper (b / 16) (by omega),
          hexVal_hexDigitUpper (b % 16) (by omega)]
        rw [ih hr]
        simp only [List.cons.injEq, and_true]
        omega

/-- Form decoding is the identity on lists without plus and percent. -/
theorem formDecode_clean :
    ∀ l : Bytes, (∀ c ∈ l, c ≠ 43 ∧ c ≠ 37) → formDecode l = l := by
  intro l
  induction l with
  | nil => intro _; exact formDecode_nil
  | cons b rest ih =>
      intro h
      obtain ⟨h43, h37⟩ := h b (by simp)
      rw [formDecode_cons, if_neg h43, if_neg h37,
        ih (fun c hc => h c (by simp [hc]))]

/-- Characters of a percent encoding are unreserved, the percent sign, or
upper-case hexadecimal digits. -/
theorem mem_percentEncode (bs : Bytes) (hwf : BytesWF bs) :
    ∀ c ∈ percentEncode bs,
      isUnreservedURIByte c = true ∨ c = 37 ∨
        ∃ n, n < 16 ∧ c = hexDigitUpper n := by
  induction bs with
  | nil => simp [percentEncode]
  | cons b rest ih =>
      intro c hc
      have hb : b < 256 := hwf b (by simp)
      have hr : BytesWF rest := fun x hx => hwf x (by simp [hx])
      rw [percentEncode] at hc
      rcases List.mem_append.mp hc with hin | hin
      · by_cases hu : isUnreservedURIByte b
        · rw [if_pos hu] at hin
          simp only [List.mem_cons, List.not_mem_nil, or_false] at hin
          subst hin
          exact Or.inl hu
        · rw [if_neg hu] at hin
          simp only [List.mem_cons, List.not_mem_nil, or_false] at hin
          rcases hin with rfl | rfl | rfl
          · exact Or.inr (Or.inl rfl)
          · exact Or.inr (Or.inr ⟨b / 16, by omega, rfl⟩)
          · exact Or.inr (Or.inr ⟨b % 16, by omega, rfl⟩)
      · exact ih hr c hin

/-- Percent encodings contain no ampersand, equals, plus or percent-free
specials that would confuse query parsing. -/
theorem percentEncode_avoid (bs : Bytes) (hwf : BytesWF bs) :
    ∀ c ∈ percentEncode bs, c ≠ 38 ∧ c ≠ 61 := by
  intro c hc
  rcases mem_percentEncode bs hwf c hc with hu | rfl | ⟨n, hn, rfl⟩
  · obtain ⟨_, _, h38, h61⟩ := unreserved_not_special c hu
    exact ⟨h38, h61⟩
  · exact ⟨by decide, by decide⟩
  · have hd : ∀ m < 16, hexDigitUpper m ≠ 38 ∧ hexDigitUpper m ≠ 61 := by
      decide
    exact hd n hn

/-- Splitting a separator-free list yields that single segment. -/
theorem splitOnByte_no_sep (sep : Nat) :
    ∀ xs : Bytes, sep ∉ xs → splitOnByte sep xs = [xs] := by
  intro xs
  induction xs with
  | nil => intro _; rfl
  | cons b rest ih =>
      intro h
      have hb : ¬ b = sep := fun hc => h (by simp [hc])
      rw [splitOnByte, if_neg hb, ih (fun hmem => h (by simp [hmem]))]

/-- Splitting at the first separator peels one segment. -/
theorem splitOnByte_sep_append (sep : Nat) :
    ∀ xs ys : Bytes, sep ∉ xs →
      splitOnByte sep (xs ++ sep :: ys) = xs :: splitOnByte sep ys := by
  intro xs
  induction xs with
  | nil =>
      intro ys _
      simp only [List.nil_append]
      rw [splitOnByte, if_pos rfl]
  | cons b rest ih =>
      intro ys h
      have hb : ¬ b = sep := fun hc => h (by simp [hc])
      rw [List.cons_append, splitOnByte, if_neg hb,
        ih ys (fun hmem => h (by simp [hmem]))]

/-- A segment without an equals sign has no value. -/
theorem splitFirstEq_no_eq :
    ∀ l : Bytes, (61 : Nat) ∉ l → splitFirstEq l = (l, none) := by
  intro l
  induction l with
  | nil => intro _; rfl
  | cons b rest ih =>
      intro h
      have hb : ¬ b = 61 := fun hc => h (by simp [hc])
      rw [splitFirstEq, if_neg hb, ih (fun hmem => h (by simp [hmem]))]

/-- A segment splits at its first equals sign. -/
theorem splitFirstEq_append (k v : Bytes) (hk : (61 : Nat) ∉ k) :
    splitFirstEq (k ++ 61 :: v) = (k, some v) := by
  induction k with
  | nil =>
      simp only [List.nil_append]
      rw [splitFirstEq, if_pos rfl]
  | cons b rest ih =>
      have hb : ¬ b = 61 := fun hc => hk (by simp [hc])
      rw [List.cons_append, splitFirstEq, if_neg hb,
        ih (fun hmem => hk (by simp [hmem]))]

/-- The base64url form of an input of length 2 mod 3 is the substituted
padding-free core. -/
theorem toBase64Url_core (bs : Bytes) (hlen : bs.length % 3 = 2) :
    ∃ core : Bytes, toBase64Url bs = core.map urlmapChar ∧
      (∀ c ∈ core, ∃ n, n < 64 ∧ c = b64Char n) ∧ core.length % 4 = 3 := by
  obtain ⟨core, hcore, hmem, hl4⟩ := base64Encode_mod3_two bs hlen
  refine ⟨core, ?_, hmem, hl4⟩
  rw [toBase64Url, hcore, List.map_append]
  have h61 : urlmapChar 61 = 61 := rfl
  simp only [List.map_cons, List.map_nil, h61]
  refine takeWhile_append_pad _ ?_
  intro x hx
  obtain ⟨c, hc, rfl⟩ := List.mem_map.mp hx
  obtain ⟨n, hn, rfl⟩ := hmem c hc
  exact (urlmap_b64_avoid n hn).1

/-- Base64url characters avoid the query metacharacters. -/
theorem mem_toBase64Url_avoid (bs : Bytes) (hlen : bs.length % 3 = 2) :
    ∀ c ∈ toBase64Url bs, c ≠ 61 ∧ c ≠ 38 ∧ c ≠ 43 ∧ c ≠ 37 := by
  obtain ⟨core, hurl, hmem, _⟩ := toBase64Url_core bs hlen
  intro c hc
  rw [hurl] at hc
  obtain ⟨d, hd, rfl⟩ := List.mem_map.mp hc
  obtain ⟨n, hn, rfl⟩ := hmem d hd
  exact urlmap_b64_avoid n hn

/-- The base64url form of an input of length 2 mod 3 is nonempty. -/
theorem toBase64Url_ne_nil (bs : Bytes) (hlen : bs.length % 3 = 2) :
    toBase64Url bs ≠ [] := by
  obtain ⟨core, hurl, _, hl4⟩ := toBase64Url_core bs hlen
  rw [hurl]
  intro hc
  have hlen0 : core.length = 0 := by
    have hx := congrArg List.length hc
    simpa using hx
  omega

/-- Names of the three query parameters decode to themselves. -/
theorem formDecode_addr : formDecode (asciiBytes "addr") = asciiBytes "addr" :=
  formDecode_clean _ (by decide)

/-- Name psk decodes to itself. -/
theorem formDecode_psk : formDecode (asciiBytes "psk") = asciiBytes "psk" :=
  formDecode_clean _ (by decide)

/-- Name label decodes to itself. -/
theorem formDecode_label :
    formDecode (asciiBytes "label") = asciiBytes "label" :=
  formDecode_clean _ (by decide)

/-- The ampersand does not occur in an addr segment. -/
theorem amp_not_mem_addr_segment (addr : Bytes) (hwf : BytesWF addr) :
    (38 : Nat) ∉ asciiBytes "addr" ++ 61 :: percentEncode addr := by
  intro hmem
  rcases List.mem_append.mp hmem with h | h
  · revert h; decide
  · rcases List.mem_cons.mp h with h61 | hpe
    · omega
    · exact (percentEncode_avoid addr hwf 38 hpe).1 rfl

/-- The ampersand does not occur in a psk segment. -/
theorem amp_not_mem_psk_segment (psk : Bytes) (hlen : psk.length % 3 = 2) :
    (38 : Nat) ∉ asciiBytes "psk" ++ 61 :: toBase64Url psk := by
  intro hmem
  rcases List.mem_append.mp hmem with h | h
  · revert h; decide
  · rcases List.mem_cons.mp h with h61 | hb
    · omega
    · exact (mem_toBase64Url_avoid psk hlen 38 hb).2.1 rfl

/-- The ampersand does not occur in a label segment. -/
theorem amp_not_mem_label_segment (l : Bytes) (hwf : BytesWF l) :
    (38 : Nat) ∉ asciiBytes "label" ++ 61 :: percentEncode l := by
  intro hmem
  rcases List.mem_append.mp hmem with h | h
  · revert h; decide
  · rcases List.mem_cons.mp h with h61 | hpe
    · omega
    · exact (percentEncode_avoid l hwf 38 hpe).1 rfl

/-- Query lookups on the two-segment query produced without a label. -/
theorem searchParams_two_segments (addr psk : Bytes) (haddrWF : BytesWF addr)
    (hpskLen2 : psk.length % 3 = 2) :
    searchParamsGet
        ((asciiBytes "addr" ++ 61 :: percentEncode addr) ++
          38 :: (asciiBytes "psk" ++ 61 :: toBase64Url psk))
        (asciiBytes "addr") = some addr ∧
      searchParamsGet
        ((asciiBytes "addr" ++ 61 :: percentEncode addr) ++
          38 :: (asciiBytes "psk" ++ 61 :: toBase64Url psk))
        (asciiBytes "psk") = some (toBase64Url psk) ∧
      searchParamsGet
        ((asciiBytes "addr" ++ 61 :: percentEncode addr) ++
          38 :: (asciiBytes "psk" ++ 61 :: toBase64Url psk))
        (asciiBytes "label") = none := by
  have hQsplit : splitOnByte 38
      ((asciiBytes "addr" ++ 61 :: percentEncode addr) ++
        38 :: (asciiBytes "psk" ++ 61 :: toBase64Url psk)) =
      [asciiBytes "addr" ++ 61 :: percentEncode addr,
        asciiBytes "psk" ++ 61 :: toBase64Url psk] := by
    rw [splitOnByte_sep_append 38 _ _ (amp_not_mem_addr_segment addr haddrWF),
      splitOnByte_no_sep 38 _ (amp_not_mem_psk_segment psk hpskLen2)]
  have hA1ne : (asciiBytes "addr" ++ 61 :: percentEncode addr).isEmpty =
      false := rfl
  have hA2ne : (asciiBytes "psk" ++ 61 :: toBase64Url psk).isEmpty =
      false := rfl
  have hs1 := splitFirstEq_append (asciiBytes "addr") (percentEncode addr)
    (by decide)
  have hs2 := splitFirstEq_append (asciiBytes "psk") (toBase64Url psk)
    (by decide)
  have hb64clean : formDecode (toBase64Url psk) = toBase64Url psk :=
    formDecode_clean _ (fun c hc =>
      ⟨(mem_toBase64Url_avoid psk hpskLen2 c hc).2.2.1,
        (mem_toBase64Url_avoid psk hpskLen2 c hc).2.2.2⟩)
  refine ⟨?_, ?_, ?_⟩ <;>
    · rw [searchParamsGet, hQsplit]
      simp only [List.filter_cons, List.filter_nil, hA1ne, hA2ne,
        Bool.not_false, if_true, List.findSome?_cons, List.findSome?_nil,
        hs1, hs2, formDecode_addr, formDecode_psk, Option.getD_some]
      simp [formDecode_percentEncode addr haddrWF, hb64clean,
        asciiBytes]

/-- Query lookups on the three-segment query produced with a label. -/
theorem searchParams_three_segments (addr psk l : Bytes)
    (haddrWF : BytesWF addr) (hpskLen2 : psk.length % 3 = 2)
    (hlWF : BytesWF l) :
    searchParamsGet
        ((asciiBytes "addr" ++ 61 :: percentEncode addr) ++
          38 :: ((asciiBytes "psk" ++ 61 :: toBase64Url psk) ++
            38 :: (asciiBytes "label" ++ 61 :: percentEncode l)))
        (asciiBytes "addr") = some addr ∧
      searchParamsGet
        ((asciiBytes "addr" ++ 61 :: percentEncode addr) ++
          38 :: ((asciiBytes "psk" ++ 61 :: toBase64Url psk) ++
            38 :: (asciiBytes "label" ++ 61 :: percentEncode l)))
        (asciiBytes "psk") = some (toBase64Url psk) ∧
      searchParamsGet
        ((asciiBytes "addr" ++ 61 :: percentEncode addr) ++
          38 :: ((asciiBytes "psk" ++ 61 :: toBase64Url psk) ++
            38 :: (asciiBytes "label" ++ 61 :: percentEncode l)))
        (asciiBytes "label") = some l := by
  have hQsplit : splitOnByte 38
      ((asciiBytes "addr" ++ 61 :: percentEncode addr) ++
        38 :: ((asciiBytes "psk" ++ 61 :: toBase64Url psk) ++
          38 :: (asciiBytes "label" ++ 61 :: percentEncode l))) =
      [asciiBytes "addr" ++ 61 :: percentEncode addr,
        asciiBytes "psk" ++ 61 :: toBase64Url psk,
        asciiBytes "label" ++ 61 :: percentEncode l] := by
    rw [splitOnByte_sep_append 38 _ _ (amp_not_mem_addr_segment addr haddrWF),
      splitOnByte_sep_append 38 _ _ (amp_not_mem_psk_segment psk hpskLen2),
      splitOnByte_no_sep 38 _ (amp_not_mem_label_segment l hlWF)]
  have hA1ne : (asciiBytes "addr" ++ 61 :: percentEncode addr).isEmpty =
      false := rfl
  have hA2ne : (asciiBytes "psk" ++ 61 :: toBase64Url psk).isEmpty =
      false := rfl
  have hA3ne : (asciiBytes "label" ++ 61 :: percentEncode l).isEmpty =
      false := rfl
  have hs1 := splitFirstEq_append (asciiBytes "addr") (percentEncode addr)
    (by decide)
  have hs2 := splitFirstEq_append (asciiBytes "psk") (toBase64Url psk)
    (by decide)
  have hs3 := splitFirstEq_append (asciiBytes "label") (percentEncode l)
    (by decide)
  have hb64clean : formDecode (toBase64Url psk) = toBase64Url psk :=
    formDecode_clean _ (fun c hc =>
      ⟨(mem_toBase64Url_avoid psk hpskLen2 c hc).2.2.1,
        (mem_toBase64Url_avoid psk hpskLen2 c hc).2.2.2⟩)
  refine ⟨?_, ?_, ?_⟩ <;>
    · rw [searchParamsGet, hQsplit]
      simp only [List.filter_cons, List.filter_nil, hA1ne, hA2ne, hA3ne,
        Bool.not_false, if_true, List.findSome?_cons, List.findSome?_nil,
        hs1, hs2, hs3, formDecode_addr, formDecode_psk, formDecode_label,
        Option.getD_some]
      simp [formDecode_percentEncode addr haddrWF, hb64clean,
        formDecode_percentEncode l hlWF, asciiBytes]

/-- Literal fact: the create literal splits into the scheme and the addr
name. -/
theorem scheme_addr_split : asciiBytes "algochat-psk://v1?addr=" =
    asciiBytes "algochat-psk://v1?" ++ (asciiBytes "addr" ++ [61]) := rfl

/-- Literal fact: the psk separator literal. -/
theorem amp_psk_split : asciiBytes "&psk=" =
    38 :: (asciiBytes "psk" ++ [61]) := rfl

/-- Literal fact: the label separator literal. -/
theorem amp_label_split : asciiBytes "&label=" =
    38 :: (asciiBytes "label" ++ [61]) := rfl

/-- Round trip of the URI codec without a label. -/
theorem uri_roundtrip_nolabel (addr psk : Bytes) (haddrWF : BytesWF addr)
    (haddrNE : addr ≠ []) (hpskWF : BytesWF psk)
    (hpskLen : psk.length = 32) :
    parsePSKExchangeURI (createPSKExchangeURI addr psk none) =
      .ok (addr, psk, none) := by
  have hlen2 : psk.length % 3 = 2 := by rw [hpskLen]
  have huri : createPSKExchangeURI addr psk none =
      asciiBytes "algochat-psk://v1?" ++
        ((asciiBytes "addr" ++ 61 :: percentEncode addr) ++
          38 :: (asciiBytes "psk" ++ 61 :: toBase64Url psk)) := by
    simp only [createPSKExchangeURI]
    rw [scheme_addr_split, amp_psk_split]
    simp [List.append_assoc]
  obtain ⟨hA, hP, hL⟩ := searchParams_two_segments addr psk haddrWF hlen2
  have hbne : (toBase64Url psk).isEmpty = false := by
    rcases htb : toBase64Url psk with _ | ⟨x, xs⟩
    · exact absurd htb (toBase64Url_ne_nil psk hlen2)
    · rfl
  have hane : addr.isEmpty = false := by
    rcases addr with _ | ⟨a0, as⟩
    · exact absurd rfl haddrNE
    · rfl
  rw [huri]
  simp only [parsePSKExchangeURI]
  rw [List.take_left, List.drop_left]
  rw [if_neg (fun hc => hc rfl)]
  rw [hA, hP]
  simp only [hane, hbne, Bool.false_eq_true, if_false]
  rw [fromBase64Url_toBase64Url psk hpskWF hlen2]
  simp [hpskLen]
  simpa using hL

/-- Round trip of the URI codec with a nonempty label. -/
theorem uri_roundtrip_label (addr psk l : Bytes) (haddrWF : BytesWF addr)
    (haddrNE : addr ≠ []) (hpskWF : BytesWF psk)
    (hpskLen : psk.length = 32) (hlWF : BytesWF l) (hlNE : l ≠ []) :
    parsePSKExchangeURI (createPSKExchangeURI addr psk (some l)) =
      .ok (addr, psk, some l) := by
  have hlen2 : psk.length % 3 = 2 := by rw [hpskLen]
  have hlpos : l.length > 0 := by
    cases l with
    | nil => exact absurd rfl hlNE
    | cons x xs => simp
  have huri : createPSKExchangeURI addr psk (some l) =
      asciiBytes "algochat-psk://v1?" ++
        ((asciiBytes "addr" ++ 61 :: percentEncode addr) ++
          38 :: ((asciiBytes "psk" ++ 61 :: toBase64Url psk) ++
            38 :: (asciiBytes "label" ++ 61 :: percentEncode l))) := by
    simp only [createPSKExchangeURI, if_pos hlpos]
    rw [scheme_addr_split, amp_psk_split, amp_label_split]
    simp [List.append_assoc]
  obtain ⟨hA, hP, hL⟩ := searchParams_three_segments addr psk l haddrWF
    hlen2 hlWF
  have hbne : (toBase64Url psk).isEmpty = false := by
    rcases htb : toBase64Url psk with _ | ⟨x, xs⟩
    · exact absurd htb (toBase64Url_ne_nil psk hlen2)
    · rfl
  have hane : addr.isEmpty = false := by
    rcases addr with _ | ⟨a0, as⟩
    · exact absurd rfl haddrNE
    · rfl
  rw [huri]
  simp only [parsePSKExchangeURI]
  rw [List.take_left, List.drop_left]
  rw [if_neg (fun hc => hc rfl)]
  rw [hA, hP]
  simp only [hane, hbne, Bool.false_eq_true, if_false]
  rw [fromBase64Url_toBase64Url psk hpskWF hlen2]
  simp [hpskLen]
  simpa using hL

/-- CLAIM C8 (amended). URI round-trip: for every nonempty address, every
32-byte psk, and a label that is either absent or nonempty, parsing the
created URI returns exactly the original components; a supplied empty
label is emitted as no label parameter and parses back as absent. -/
theorem claim_C8_psk_uri_roundtrip (addr psk : Bytes) (label : Option Bytes)
    (haddrWF : BytesWF addr) (haddrNE : addr ≠ []) (hpskWF : BytesWF psk)
    (hpskLen : psk.length = 32)
    (hlab : ∀ l, label = some l → BytesWF l ∧ l ≠ []) :
    parsePSKExchangeURI (createPSKExchangeURI addr psk label) =
      .ok (addr, psk, label) := by
  cases label with
  | none =>
      exact uri_roundtrip_nolabel addr psk haddrWF haddrNE hpskWF hpskLen
  | some l =>
      obtain ⟨hWF, hNE⟩ := hlab l rfl
      exact uri_roundtrip_label addr psk l haddrWF haddrNE hpskWF hpskLen
        hWF hNE

/-- CLAIM C8 counterexample. Supplying the empty label does not round-trip:
the parsed label is absent, not the supplied empty string. -/
theorem claim_C8_psk_uri_roundtrip_counterexample :
    parsePSKExchangeURI
        (createPSKExchangeURI [65] (List.replicate 32 0) (some [])) =
      .ok ([65], List.replicate 32 0, none) ∧
      some ([] : Bytes) ≠ (none : Option Bytes) := by
  constructor
  · have hc : createPSKExchangeURI [65] (List.replicate 32 0) (some []) =
        createPSKExchangeURI [65] (List.replicate 32 0) none := rfl
    rw [hc]
    exact uri_roundtrip_nolabel [65] (List.replicate 32 0) (by decide)
      (by decide) (by decide) (by decide)
  · simp

/-- Witness for the amended CLAIM C8 at concrete components. -/
theorem claim_C8_psk_uri_roundtrip_witness :
    parsePSKExchangeURI
        (createPSKExchangeURI [65] (List.replicate 32 0) (some [66])) =
      .ok ([65], List.replicate 32 0, some [66]) :=
  claim_C8_psk_uri_roundtrip [65] (List.replicate 32 0) (some [66])
    (by decide) (by decide) (by decide) (by decide)
    (fun l hl => by cases hl; exact ⟨by decide, by decide⟩)
